import Mathlib

/-!
Verification of the data-normalization and metrics-aggregation pipeline of
`servidor_relatorio_inadimplencia.py`.

The embedding models pandas tables as lists of rows of cell values, pandas
float cells as exact rationals extended with the IEEE specials (NaN and the
two infinities), Python dictionaries as association lists with last-write-wins
update, and the two pipeline entry points (`obter_dados_inadimplencia`,
`calcular_metricas_inadimplencia`) as total functions whose internal
exceptions are an explicit error monad caught at the top level, exactly as the
Python `try/except` blocks do.

Arithmetic note: the library's rational operations (`Rat.add` etc.) are marked
irreducible, which blocks kernel evaluation in `decide`; the definitions below
therefore use thin wrappers (`qadd`, `qmul`, `qsub`, `qdiv`) built directly on
`Rat.normalize`.  The wrappers are proved equal to the field operations of `ℚ`
(`qadd_eq` etc.), so theorems may freely use ordinary rational arithmetic.
-/

/-- Addition on `ℚ`, kernel-reducible. -/
def qadd (a b : ℚ) : ℚ :=
  Rat.normalize (a.num * b.den + b.num * a.den) (a.den * b.den)
    (Nat.mul_ne_zero a.den_nz b.den_nz)

/-- Multiplication on `ℚ`, kernel-reducible. -/
def qmul (a b : ℚ) : ℚ :=
  Rat.normalize (a.num * b.num) (a.den * b.den) (Nat.mul_ne_zero a.den_nz b.den_nz)

/-- Subtraction on `ℚ`, kernel-reducible. -/
def qsub (a b : ℚ) : ℚ := qadd a (qmul b (-1))

/-- Division on `ℚ` (with the `x / 0 = 0` convention of `ℚ`), kernel-reducible. -/
def qdiv (a b : ℚ) : ℚ :=
  if h : b.num = 0 then 0
  else
    Rat.normalize (a.num * b.den * Int.sign b.num) (a.den * b.num.natAbs)
      (Nat.mul_ne_zero a.den_nz (Int.natAbs_ne_zero.mpr h))

/-- Integer-valued rational, kernel-reducible (`Rat.normalize n 1` is `n`). -/
def qofInt (n : ℤ) : ℚ := Rat.normalize n 1 one_ne_zero

/-- Rounding of a rational to the nearest integer, halves to the even
neighbour; this is the rounding `numpy.round` applies to the scaled value.
(The model computes with exact rationals; on cell values exactly representable
in binary floating point this agrees with numpy.) -/
def roundHalfEven (q : ℚ) : ℤ :=
  let f := q.floor
  let r := qsub q (qofInt f)
  if r < mkRat 1 2 then f
  else if mkRat 1 2 < r then f + 1
  else if f % 2 = 0 then f else f + 1

/-- Rounding of a rational to 2 decimal places, halves to even: the model of
the `.round(2)` used by `calcular_metricas_inadimplencia`. -/
def round2q (q : ℚ) : ℚ :=
  Rat.normalize (roundHalfEven (qmul q (qofInt 100))) 100 (by decide)

/-!
Cell values.  A pandas cell in this pipeline is a string, an integer, a float
(modelled as an exact rational) or a null (`NaN`/`None`).
-/

/-- Values a spreadsheet cell can hold in this pipeline. -/
inductive Value where
  | s (v : String)
  | i (v : Int)
  | q (v : ℚ)
  | null
deriving DecidableEq, Repr

/-- Python `str()` of a cell, as `astype(str)` applies it elementwise:
strings unchanged, integers in decimal, floats with a trailing `.0` when
integral (the only float-code shape exercised here), `NaN` becomes `"nan"`. -/
def pyStr : Value → String
  | .s v => v
  | .i v => toString v
  | .q v => if v.den = 1 then toString v.num ++ ".0" else toString v.num ++ "/" ++ toString v.den
  | .null => "nan"

/-- Numeric reading of a cell (`int` and `float` cells); strings and nulls
have none. -/
def Value.toQ : Value → Option ℚ
  | .i v => some (qofInt v)
  | .q v => some v
  | .s _ => none
  | .null => none

/-- Truth of a cell being a string, used to model the `TypeError` pandas
raises when numeric aggregation meets string cells. -/
def Value.isStr : Value → Bool
  | .s _ => true
  | _ => false

/-!
Pandas float results: exact rationals extended with the IEEE specials, which
is what the percentage division can produce (`0/0 = NaN`, `±x/0 = ±inf`).
-/

/-- Result values of the float columns of the aggregated table. -/
inductive PFloat where
  | num (v : ℚ)
  | nan
  | inf
  | ninf
deriving DecidableEq, Repr

/-- Pandas `isna` on a float: true exactly on `NaN` (the float null sentinel). -/
def PFloat.isna : PFloat → Bool
  | .nan => true
  | _ => false

/-- IEEE subtraction on pandas floats. -/
def pfSub : PFloat → PFloat → PFloat
  | .nan, _ => .nan
  | _, .nan => .nan
  | .num a, .num b => .num (qsub a b)
  | .num _, .inf => .ninf
  | .num _, .ninf => .inf
  | .inf, .num _ => .inf
  | .inf, .inf => .nan
  | .inf, .ninf => .inf
  | .ninf, .num _ => .ninf
  | .ninf, .inf => .ninf
  | .ninf, .ninf => .nan

/-- IEEE division on pandas floats: `0/0` is `NaN`, a nonzero numerator over
zero is a signed infinity — numpy warns but does not raise. -/
def pfDiv : PFloat → PFloat → PFloat
  | .nan, _ => .nan
  | _, .nan => .nan
  | .num a, .num b =>
    if b = 0 then
      if a = 0 then .nan else if 0 < a then .inf else .ninf
    else .num (qdiv a b)
  | .num _, .inf => .num 0
  | .num _, .ninf => .num 0
  | .inf, .num b => if b < 0 then .ninf else .inf
  | .ninf, .num b => if b < 0 then .inf else .ninf
  | .inf, .inf => .nan
  | .inf, .ninf => .nan
  | .ninf, .inf => .nan
  | .ninf, .ninf => .nan

/-- Multiplication of a pandas float by the positive constant 100. -/
def pfMul100 : PFloat → PFloat
  | .num a => .num (qmul a (qofInt 100))
  | .nan => .nan
  | .inf => .inf
  | .ninf => .ninf

/-- Rounding of a pandas float to 2 decimals (`numpy.round` keeps the
specials unchanged). -/
def pfRound2 : PFloat → PFloat
  | .num a => .num (round2q a)
  | .nan => .nan
  | .inf => .inf
  | .ninf => .ninf

/-!
String normalization (`_norm` for sheet names, the separate column-map
normalizer of the unification block) and Python dictionaries.
-/

/-- Whitespace for Python `str.strip()` (the ASCII repertoire met here). -/
def isSpaceChar (c : Char) : Bool :=
  c == ' ' || c == '\t' || c == '\n' || c == '\r'

/-- Python `str.strip()` on a character list. -/
def trimL (l : List Char) : List Char :=
  ((l.dropWhile isSpaceChar).reverse.dropWhile isSpaceChar).reverse

/-- Python `str.strip()` (the library's `String.trim` is equivalent but does
not kernel-reduce). -/
def pyTrim (s : String) : String := String.mk (trimL s.data)

/-- Prefix test on character lists. -/
def isPrefixL : List Char → List Char → Bool
  | [], _ => true
  | _ :: _, [] => false
  | a :: as, b :: bs => a == b && isPrefixL as bs

/-- Left-to-right, non-overlapping replacement of a nonempty pattern, as
Python `str.replace` performs it; structural on a fuel bounded by the input
length so the kernel can evaluate it. -/
def replaceFuel (pat repl : List Char) : Nat → List Char → List Char
  | 0, l => l
  | _ + 1, [] => []
  | fuel + 1, x :: xs =>
    if isPrefixL pat (x :: xs) then repl ++ replaceFuel pat repl fuel ((x :: xs).drop pat.length)
    else x :: replaceFuel pat repl fuel xs

/-- Python `str.replace` (total; the patterns used by the source are all
nonempty). -/
def pyReplace (s pat repl : String) : String :=
  String.mk (replaceFuel pat.data repl.data s.data.length s.data)

/-- Python substring test (`needle in hay`). -/
def containsL (pat : List Char) : List Char → Bool
  | [] => isPrefixL pat []
  | x :: xs => isPrefixL pat (x :: xs) || containsL pat xs

/-- Python `needle in hay` on strings. -/
def containsSub (hay needle : String) : Bool :=
  containsL needle.data hay.data

/-- Python `str.upper()` restricted to the character repertoire this pipeline
meets: ASCII plus the accented Latin letters the normalizer substitutes. -/
def pyUpper (t : String) : String :=
  String.mk (t.data.map fun c =>
    match c with
    | 'á' => 'Á' | 'â' => 'Â' | 'ã' => 'Ã'
    | 'é' => 'É' | 'ê' => 'Ê'
    | 'í' => 'Í'
    | 'ó' => 'Ó' | 'ô' => 'Ô' | 'õ' => 'Õ'
    | 'ú' => 'Ú'
    | 'ç' => 'Ç'
    | c => c.toUpper)

/-- The `_norm` helper of `obter_dados_inadimplencia`: strip, uppercase,
substitute the fixed accented-letter table, drop spaces and underscores. -/
def normTexto (texto : String) : String :=
  let t := pyUpper (pyTrim texto)
  let t := pyReplace (pyReplace (pyReplace (pyReplace (pyReplace (pyReplace
    (pyReplace (pyReplace (pyReplace (pyReplace (pyReplace t
    "Á" "A") "Â" "A") "Ã" "A") "É" "E") "Ê" "E") "Í" "I") "Ó" "O") "Ô" "O")
    "Õ" "O") "Ú" "U") "Ç" "C"
  pyReplace (pyReplace t " " "") "_" ""

/-- Column-name normalizer of the unification block: strip, uppercase, drop
dots, dashes to spaces, collapse double spaces. -/
def cnorm (c : String) : String :=
  pyReplace (pyReplace (pyReplace (pyUpper (pyTrim c)) "." "") "-" " ") "  " " "

/-- Python `dict` update `d[k] = v`: overwrite the value in place if the key
exists (keeping its insertion position), else append. -/
def dictInsert (d : List (String × String)) (k v : String) : List (String × String) :=
  match d with
  | [] => [(k, v)]
  | (k', v') :: rest => if k' == k then (k', v) :: rest else (k', v') :: dictInsert rest k v

/-- Python `dict(...)` built from a pair sequence: later pairs with the same
key overwrite earlier values. -/
def dictOf (pares : List (String × String)) : List (String × String) :=
  pares.foldl (fun d kv => dictInsert d kv.1 kv.2) []

/-- Python `d.get(k)` / `k in d`. -/
def dictGet? (d : List (String × String)) (k : String) : Option String :=
  (d.find? (fun kv => kv.1 == k)).map (·.2)

/-- Keep the first value seen for each key: the model of
`groupby(name).first()` building the pivot code per salesperson name. -/
def insertIfAbsent (d : List (String × String)) (k v : String) : List (String × String) :=
  if (dictGet? d k).isSome then d else d ++ [(k, v)]

/-- The pivot map of the name-unification fallback: for each raw name, the
first-encountered raw code. -/
def primeiroPorNome (pares : List (String × String)) : List (String × String) :=
  pares.foldl (fun d p => insertIfAbsent d p.2 p.1) []

/-!
Sheet resolution.
-/

/-- The dictionary normalized-sheet-name → original sheet name
(`mapa_norm_para_original`); duplicate normalized names keep the last
original, as a Python dict comprehension does. -/
def mapaNormParaOriginal (abas : List String) : List (String × String) :=
  dictOf (abas.map fun n => (normTexto n, n))

/-- The candidate loop: the first candidate that is literally a key of the
normalized-name dictionary wins, returning the original sheet name. -/
def buscarCandidato (mapa : List (String × String)) (cands : List String) : Option String :=
  cands.findSome? (fun c => dictGet? mapa c)

/-- The ranked candidate list for the delinquency-base sheet (the literal list
of the source, duplicate included). -/
def candidatosInadi : List String :=
  ["BASEINADI", "BASEINAD", "BASEINADIMPLENCIA", "INADIMPLENCIA", "INADIMPLENCIA", "INAD"]

/-- The ranked candidate list for the salesperson-reference sheet. -/
def candidatosRca : List String :=
  ["BASERCA", "RCA", "BASEVENDEDOR", "VENDEDORES", "VENDEDOR", "RCABASE"]

/-- Sheet resolution for the delinquency base: first matching candidate, else
first sheet with a fallback flag; `none` models the `IndexError` of
`abas_disponiveis[0]` on an empty workbook. -/
def resolveSheet (abas : List String) (cands : List String) : Option (String × Bool) :=
  match buscarCandidato (mapaNormParaOriginal abas) cands with
  | some a => some (a, false)
  | none => abas.head?.map (fun a => (a, true))

/-- Sheet resolution for the reference sheet: first matching candidate, else
the literal default name `BASE_RCA` (whose read may then fail and be caught). -/
def resolveAbaRca (abas : List String) : String :=
  (buscarCandidato (mapaNormParaOriginal abas) candidatosRca).getD "BASE_RCA"

/-!
Tables and workbooks.
-/

/-- A pandas DataFrame: named columns over rows of cells. -/
structure Table where
  cols : List String
  rows : List (List Value)
deriving DecidableEq, Repr

/-- Index of a column label (first occurrence). -/
def colIdx (cols : List String) (c : String) : Option Nat :=
  match cols with
  | [] => none
  | c' :: rest => if c' == c then some 0 else (colIdx rest c).map (· + 1)

/-- Cell of a row under a column label. -/
def rowGet? (cols : List String) (r : List Value) (c : String) : Option Value :=
  (colIdx cols c).bind fun i => r[i]?

/-- Cell of a row under a column label, null when absent. -/
def cellD (cols : List String) (r : List Value) (c : String) : Value :=
  (rowGet? cols r c).getD .null

/-- Well-formedness: every row has exactly one cell per column. -/
def Table.Wf (t : Table) : Prop :=
  ∀ r ∈ t.rows, r.length = t.cols.length

instance (t : Table) : Decidable t.Wf := by
  unfold Table.Wf
  infer_instance

/-- Pandas column assignment `df[c] = f(row)`: overwrite the column in place
if the label exists, else append it on the right.  The right-hand side is
evaluated on the dataframe before the assignment, hence `f` sees the old row. -/
def Table.mapAddCol (t : Table) (c : String) (f : List Value → Value) : Table :=
  match colIdx t.cols c with
  | some i => ⟨t.cols, t.rows.map fun r => r.set i (f r)⟩
  | none => ⟨t.cols ++ [c], t.rows.map fun r => r ++ [f r]⟩

/-- An Excel workbook: ordered sheets with names. -/
structure Workbook where
  sheets : List (String × Table)
deriving DecidableEq, Repr

/-- Sheet names in workbook order (`pd.ExcelFile(...).sheet_names`). -/
def Workbook.sheetNames (wb : Workbook) : List String :=
  wb.sheets.map (·.1)

/-- Reading a sheet by exact name (`pd.read_excel(arquivo, sheet_name=aba)`). -/
def lookupSheet (wb : Workbook) (name : String) : Option Table :=
  (wb.sheets.find? (fun p => p.1 == name)).map (·.2)

/-- The Python exceptions that arise inside the pipeline; all of them are
caught by the top-level handlers.  There is no further structure: the source
defines no typed error of its own. -/
inductive PyError where
  | keyError (col : String)
  | sheetNotFound (name : String)
  | indexError
  | typeError
deriving DecidableEq, Repr

instance {ε α : Type} [DecidableEq ε] [DecidableEq α] : DecidableEq (Except ε α) :=
  fun a b =>
    match a, b with
    | .ok x, .ok y =>
      match decEq x y with
      | isTrue h => isTrue (h ▸ rfl)
      | isFalse h => isFalse fun hh => h (by injection hh)
    | .ok _, .error _ => isFalse fun hh => Except.noConfusion hh
    | .error _, .ok _ => isFalse fun hh => Except.noConfusion hh
    | .error x, .error y =>
      match decEq x y with
      | isTrue h => isTrue (h ▸ rfl)
      | isFalse h => isFalse fun hh => h (by injection hh)

/-!
Column renaming and synthesis of missing columns.
-/

/-- The fixed legacy rename table of the source. -/
def mapaLegado : List (String × String) :=
  [("RCA", "COD_VENDEDOR"), ("VALOR", "VALOR_TITULO"), ("DIAS", "DIAS_ATRASO"),
   ("CLIENTE", "NOME_CLIENTE"), ("VENC", "DATA_VENCIMENTO"), ("DUPLIC", "COD_CLIENTE")]

/-- Rename of a single column label under the legacy map (labels outside the
map are untouched, as `DataFrame.rename` does). -/
def renomearColuna (c : String) : String :=
  (mapaLegado.lookup c).getD c

/-- The renaming step of the source: the whole rename is guarded by the
presence of the `RCA` column. -/
def renomearColunasLegadas (t : Table) : Table :=
  if t.cols.contains "RCA" then ⟨t.cols.map renomearColuna, t.rows⟩ else t

/-- Synthesis of a constant-valued column when absent. -/
def passoConst (t : Table) (c : String) (v : Value) : Table :=
  if t.cols.contains c then t else t.mapAddCol c (fun _ => v)

/-- Synthesis of `NOME_VENDEDOR` when absent: copy `NOME_RCA` when present,
else build from `COD_VENDEDOR` (whose absence is a `KeyError`). -/
def passoNomeVendedor (t : Table) : Except PyError Table :=
  if t.cols.contains "NOME_VENDEDOR" then .ok t
  else if t.cols.contains "NOME_RCA" then
    .ok (t.mapAddCol "NOME_VENDEDOR" (fun r => cellD t.cols r "NOME_RCA"))
  else if t.cols.contains "COD_VENDEDOR" then
    .ok (t.mapAddCol "NOME_VENDEDOR"
      (fun r => .s ("Vendedor " ++ pyStr (cellD t.cols r "COD_VENDEDOR"))))
  else .error (.keyError "COD_VENDEDOR")

/-- The due date synthesized from today minus the overdue days; the ISO
rendering of the date is abstracted to the decimal print of its day index
(no claim inspects the text), a non-numeric day count becomes null (`NaT`). -/
def dataVencSintetica (hoje : Int) (dias : Value) : Value :=
  match dias.toQ with
  | some q => .s (toString (hoje - q.floor))
  | none => .null

/-- Synthesis of `DATA_VENCIMENTO` when absent: requires `DIAS_ATRASO`, whose
absence raises the `KeyError` the source hits at
`pd.to_timedelta(df_inadimplencia['DIAS_ATRASO'], ...)`. -/
def passoDataVencimento (hoje : Int) (t : Table) : Except PyError Table :=
  if t.cols.contains "DATA_VENCIMENTO" then .ok t
  else if t.cols.contains "DIAS_ATRASO" then
    .ok (t.mapAddCol "DATA_VENCIMENTO"
      (fun r => dataVencSintetica hoje (cellD t.cols r "DIAS_ATRASO")))
  else .error (.keyError "DIAS_ATRASO")

/-- The ordered default-filling chain of the source (lines 161-187). -/
def sintetizarColunas (hoje : Int) (t : Table) : Except PyError Table :=
  match passoNomeVendedor t with
  | .error e => .error e
  | .ok t1 =>
    let t2 := passoConst t1 "COD_CLIENTE" (.s "Cliente")
    let t3 := passoConst t2 "NOME_CLIENTE" (.s "Cliente")
    match passoDataVencimento hoje t3 with
    | .error e => .error e
    | .ok t4 =>
      let t5 := passoConst t4 "STATUS_TITULO" (.s "EM ABERTO")
      let t6 := passoConst t5 "VALOR_PAGO" (.i 0)
      let t7 := passoConst t6 "DATA_PAGAMENTO" .null
      .ok (passoConst t7 "OBSERVACOES" (.s ""))

/-!
Identity unification (the two `try` blocks over the reference sheet).
-/

/-- The plain code→name map of the first reference pass, built only from the
two exact column shapes `RCA`/`NOME_RCA` or `COD`/`NOME`. -/
def mapaRcaNome (df : Table) : List (String × String) :=
  if df.cols.contains "RCA" && df.cols.contains "NOME_RCA" then
    dictOf (df.rows.map fun r => (pyStr (cellD df.cols r "RCA"), pyStr (cellD df.cols r "NOME_RCA")))
  else if df.cols.contains "COD" && df.cols.contains "NOME" then
    dictOf (df.rows.map fun r => (pyStr (cellD df.cols r "COD"), pyStr (cellD df.cols r "NOME")))
  else []

/-- First reference pass (lines 190-220): update `NOME_VENDEDOR` through the
code→name map; any internal failure is swallowed (`except: pass`). -/
def atualizarNomesTry (wb : Workbook) (t : Table) : Except PyError Table :=
  match lookupSheet wb (resolveAbaRca wb.sheetNames) with
  | none => .error (.sheetNotFound (resolveAbaRca wb.sheetNames))
  | some dfRca =>
    let mapa := mapaRcaNome dfRca
    if mapa.isEmpty then .ok t
    else if t.cols.contains "COD_VENDEDOR" && t.cols.contains "NOME_VENDEDOR" then
      .ok (t.mapAddCol "NOME_VENDEDOR" (fun r =>
        match dictGet? mapa (pyStr (cellD t.cols r "COD_VENDEDOR")) with
        | some v => .s v
        | none => cellD t.cols r "NOME_VENDEDOR"))
    else .error (.keyError "COD_VENDEDOR")

/-- First reference pass with its exceptions swallowed. -/
def atualizarNomes (wb : Workbook) (t : Table) : Table :=
  match atualizarNomesTry wb t with
  | .ok t1 => t1
  | .error _ => t

/-- The column dictionary of the unification block
(`colmap[normalized] = original`). -/
def colmapDe (df : Table) : List (String × String) :=
  dictOf (df.cols.map fun c => (cnorm c, c))

/-- The `find_col` helper: exact normalized match first, then substring
containment over the dictionary in insertion order. -/
def findCol (colmap : List (String × String)) (cand : String) : Option String :=
  match dictGet? colmap cand with
  | some c => some c
  | none => (colmap.find? (fun kv => containsSub kv.1 cand)).map (·.2)

/-- Construction of the two unification dictionaries (lines 237-278): prefer
the explicit `MESMO_*` columns, else fall back to pivoting by identical raw
name; with no usable columns both maps stay empty. -/
def construirMapas (df : Table) : List (String × String) × List (String × String) :=
  let colmap := colmapDe df
  let colRca := ((findCol colmap "RCA").orElse fun _ =>
    (findCol colmap "COD").orElse fun _ => findCol colmap "CODIGO")
  let colNome := (findCol colmap "NOME RCA").orElse fun _ => findCol colmap "NOME"
  let colMesmoCod := ((findCol colmap "MESMO COD").orElse fun _ =>
    (findCol colmap "MESMO_COD").orElse fun _ =>
    (findCol colmap "MESMO CODIGO").orElse fun _ =>
    (findCol colmap "CODIGO UNIFICADO").orElse fun _ => findCol colmap "COD UNIFICADO")
  let colMesmoVend := ((findCol colmap "MESMO VEND").orElse fun _ =>
    (findCol colmap "MESMO_VEND").orElse fun _ =>
    (findCol colmap "MESMO VENDEDOR").orElse fun _ =>
    (findCol colmap "NOME UNIFICADO").orElse fun _ => findCol colmap "VENDEDOR UNIFICADO")
  match colRca with
  | none => ([], [])
  | some cr =>
    match colMesmoCod, colMesmoVend with
    | some cc, some cv =>
      (dictOf (df.rows.map fun r => (pyStr (cellD df.cols r cr), pyStr (cellD df.cols r cc))),
       dictOf (df.rows.map fun r => (pyStr (cellD df.cols r cr), pyStr (cellD df.cols r cv))))
    | _, _ =>
      match colNome with
      | none => ([], [])
      | some cn =>
        let pares := df.rows.map fun r => (pyStr (cellD df.cols r cr), pyStr (cellD df.cols r cn))
        let pivots := primeiroPorNome pares
        (dictOf (pares.map fun p => (p.1, (dictGet? pivots p.2).getD p.1)),
         dictOf pares)

/-- Resolution and read of the reference sheet followed by map construction. -/
def lerMapas (wb : Workbook) :
    Except PyError (List (String × String) × List (String × String)) :=
  match lookupSheet wb (resolveAbaRca wb.sheetNames) with
  | none => .error (.sheetNotFound (resolveAbaRca wb.sheetNames))
  | some dfRca => .ok (construirMapas dfRca)

/-- The no-map assignment (lines 285-286 and, identically, the `except`
branch 288-289): unified code is the stringified own code, unified name the
own name. -/
def aplicarSemMapa (t : Table) : Except PyError Table :=
  if t.cols.contains "COD_VENDEDOR" && t.cols.contains "NOME_VENDEDOR" then
    let t1 := t.mapAddCol "COD_UNIFICADO" (fun r => .s (pyStr (cellD t.cols r "COD_VENDEDOR")))
    .ok (t1.mapAddCol "NOME_UNIFICADO" (fun r => cellD t1.cols r "NOME_VENDEDOR"))
  else .error (.keyError "COD_VENDEDOR")

/-- The mapped assignment (lines 282-283): look the stringified own code up
in each dictionary, `fillna` with the stringified own code resp. the own
name. -/
def aplicarMapa (mc mn : List (String × String)) (t : Table) : Except PyError Table :=
  if t.cols.contains "COD_VENDEDOR" && t.cols.contains "NOME_VENDEDOR" then
    let t1 := t.mapAddCol "COD_UNIFICADO" (fun r =>
      .s ((dictGet? mc (pyStr (cellD t.cols r "COD_VENDEDOR"))).getD
        (pyStr (cellD t.cols r "COD_VENDEDOR"))))
    .ok (t1.mapAddCol "NOME_UNIFICADO" (fun r =>
      ((dictGet? mn (pyStr (cellD t1.cols r "COD_VENDEDOR"))).map Value.s).getD
        (cellD t1.cols r "NOME_VENDEDOR")))
  else .error (.keyError "COD_VENDEDOR")

/-- Body of the unification `try` (lines 225-286). -/
def unificarBlocoTry (wb : Workbook) (t : Table) : Except PyError Table :=
  match lerMapas wb with
  | .error e => .error e
  | .ok (mc, mn) => if mn.isEmpty then aplicarSemMapa t else aplicarMapa mc mn t

/-- The unification block with its `except` handler (lines 287-289): on any
internal failure fall back to the no-map assignment, whose own failure
(`COD_VENDEDOR` missing) escapes to the top-level handler. -/
def unificarBloco (wb : Workbook) (t : Table) : Except PyError Table :=
  match unificarBlocoTry wb t with
  | .ok t1 => .ok t1
  | .error _ => aplicarSemMapa t

/-!
The first entry point.
-/

/-- Body of `obter_dados_inadimplencia` inside its `try`: `none` input models
the no-file early `return None`; an empty sheet also returns `None`; the
remaining failures are exceptions. -/
def obterDadosE (hoje : Int) (arquivo : Option Workbook) : Except PyError (Option Table) :=
  match arquivo with
  | none => .ok none
  | some wb =>
    match resolveSheet wb.sheetNames candidatosInadi with
    | none => .error .indexError
    | some resolvido =>
      match lookupSheet wb resolvido.1 with
      | none => .error (.sheetNotFound resolvido.1)
      | some df0 =>
        if df0.rows.isEmpty || df0.cols.isEmpty then .ok none
        else
          match sintetizarColunas hoje (renomearColunasLegadas df0) with
          | .error e => .error e
          | .ok df2 =>
            match unificarBloco wb (atualizarNomes wb df2) with
            | .error e => .error e
            | .ok df4 => .ok (some df4)

/-- `obter_dados_inadimplencia`: the body with every exception caught into
the `None` sentinel. -/
def obterDadosInadimplencia (hoje : Int) (arquivo : Option Workbook) : Option Table :=
  match obterDadosE hoje arquivo with
  | .ok r => r
  | .error _ => none

/-!
The metrics aggregator.
-/

/-- Type rank used to order group keys of mixed type deterministically
(pandas raises on genuinely incomparable keys; after unification the keys are
always strings, so the cross-type order is never observable). -/
def Value.vrank : Value → Nat
  | .i _ => 0
  | .q _ => 0
  | .s _ => 1
  | .null => 2

/-- Lexicographic code-point comparison of character lists (Python's string
order; the library's `String.ltb` is equivalent but does not kernel-reduce). -/
def strLtL : List Char → List Char → Bool
  | [], [] => false
  | [], _ :: _ => true
  | _ :: _, [] => false
  | a :: as, b :: bs =>
    if a.toNat < b.toNat then true
    else if b.toNat < a.toNat then false
    else strLtL as bs

/-- Python string `<`. -/
def strLt (a b : String) : Bool := strLtL a.data b.data

/-- Strict comparison of two cells as Python compares group keys: numbers
numerically (`1 < 1.5` across int/float), strings lexicographically. -/
def valLt (a b : Value) : Bool :=
  match a.toQ, b.toQ with
  | some x, some y => decide (x < y)
  | _, _ =>
    match a, b with
    | .s x, .s y => strLt x y
    | _, _ => decide (a.vrank < b.vrank)

/-- Key equivalence induced by the comparison (`1 == 1.0` in Python, exact
equality on strings). -/
def valEqB (a b : Value) : Bool :=
  !valLt a b && !valLt b a

/-- Strict lexicographic comparison of `(code, name)` group-key tuples. -/
def chaveLt (a b : Value × Value) : Bool :=
  valLt a.1 b.1 || (valEqB a.1 b.1 && valLt a.2 b.2)

/-- Group-key equality for the groupby. -/
def chaveEq (a b : Value × Value) : Bool :=
  valEqB a.1 b.1 && valEqB a.2 b.2

/-- Append a row to its group, keeping groups in encounter order. -/
def addToGroup (gs : List ((Value × Value) × List (List Value)))
    (k : Value × Value) (r : List Value) :
    List ((Value × Value) × List (List Value)) :=
  match gs with
  | [] => [(k, [r])]
  | g :: rest => if chaveEq g.1 k then (g.1, g.2 ++ [r]) :: rest else g :: addToGroup rest k r

/-- `df.groupby([cc, cn])` row collection: rows with a null key cell are
dropped (`dropna=True`), groups keep encounter order; a missing key column is
a `KeyError`. -/
def agrupar (t : Table) (cc cn : String) :
    Except PyError (List ((Value × Value) × List (List Value))) :=
  if t.cols.contains cc && t.cols.contains cn then
    .ok (t.rows.foldl (fun gs r =>
      let k := (cellD t.cols r cc, cellD t.cols r cn)
      if k.1 == Value.null || k.2 == Value.null then gs else addToGroup gs k r) [])
  else .error (.keyError cc)

/-- Stable insertion of `x` into a sorted list: `x` goes before the first
element not strictly below it, so existing ties keep their order. -/
def insort (lt : α → α → Bool) (x : α) : List α → List α
  | [] => [x]
  | y :: ys => if lt y x then y :: insort lt x ys else x :: y :: ys

/-- Stable ascending insertion sort by a strict comparator; this is exact for
the sorts of this pipeline (numpy applies a stable insertion sort below its
small-array cutoff, and `groupby(sort=True)` key order is deterministic). -/
def isort (lt : α → α → Bool) : List α → List α
  | [] => []
  | x :: xs => insort lt x (isort lt xs)

/-- `groupby(..., sort=True)`: groups ascending by key tuple. -/
def ordenarGrupos (gs : List ((Value × Value) × List (List Value))) :
    List ((Value × Value) × List (List Value)) :=
  isort (fun g h => chaveLt g.1 h.1) gs

/-- One row of the aggregated per-salesperson table, fields in source order
after the flatten/rename. -/
structure MetricsRow where
  cod : Value
  nome : Value
  valorTotal : PFloat
  qtdTitulos : PFloat
  valorPago : PFloat
  diasAtrasoMedio : PFloat
  valorEmAberto : PFloat
  percInadimplencia : PFloat
deriving DecidableEq, Repr

/-- Pandas `sum` with `skipna`: numeric cells added, nulls skipped, empty
sum is 0 (addition of exact rationals is order-insensitive, so the structural
recursion agrees with the column fold). -/
def sumQ : List Value → ℚ
  | [] => 0
  | v :: vs =>
    match v.toQ with
    | some x => qadd x (sumQ vs)
    | none => sumQ vs

/-- Pandas `count`: number of non-null cells. -/
def countNN (vs : List Value) : Nat :=
  (vs.filter (fun v => v.toQ.isSome)).length

/-- The aggregation of one group: `sum`/`count`/`sum`/`mean` with the blanket
`.round(2)` of the source, then open value and percentage, the string-cell
`TypeError` of a numeric aggregation modelled as the error case. -/
def metricsOfGroup (cols : List String)
    (g : (Value × Value) × List (List Value)) : Except PyError MetricsRow :=
  let vals := g.2.map fun r => cellD cols r "VALOR_TITULO"
  let pagos := g.2.map fun r => cellD cols r "VALOR_PAGO"
  let dias := g.2.map fun r => cellD cols r "DIAS_ATRASO"
  if vals.any Value.isStr || pagos.any Value.isStr || dias.any Value.isStr then
    .error .typeError
  else
    let total := pfRound2 (.num (sumQ vals))
    let qtd := pfRound2 (.num (qofInt (countNN vals)))
    let pago := pfRound2 (.num (sumQ pagos))
    let medio := pfRound2 (if countNN dias = 0 then .nan
      else .num (qdiv (sumQ dias) (qofInt (countNN dias))))
    let aberto := pfSub total pago
    let perc := pfRound2 (pfMul100 (pfDiv aberto total))
    .ok ⟨g.1.1, g.1.2, total, qtd, pago, medio, aberto, perc⟩

/-- Rank placing `NaN` last, as `sort_values` does (`na_position='last'`). -/
def PFloat.srank : PFloat → Nat
  | .ninf => 0
  | .num _ => 1
  | .inf => 2
  | .nan => 3

/-- Strict comparison of two pandas floats for `sort_values` (ascending,
`NaN` last). -/
def pfLt (a b : PFloat) : Bool :=
  match a, b with
  | .num x, .num y => decide (x < y)
  | _, _ => decide (a.srank < b.srank)

/-- `sort_values('DIAS_ATRASO_MEDIO', ascending=True)`. -/
def ordenarPorDiasMedio (rows : List MetricsRow) : List MetricsRow :=
  isort (fun a b => pfLt a.diasAtrasoMedio b.diasAtrasoMedio) rows

/-- The group-key column choices of the source (unified when present). -/
def chaveCod (t : Table) : String :=
  if t.cols.contains "COD_UNIFICADO" then "COD_UNIFICADO" else "COD_VENDEDOR"

/-- The group-key name column choice. -/
def chaveNome (t : Table) : String :=
  if t.cols.contains "NOME_UNIFICADO" then "NOME_UNIFICADO" else "NOME_VENDEDOR"

/-- Elementwise fallible map (the `agg` applied group by group), failing on
the first error. -/
def mapE (f : α → Except PyError β) : List α → Except PyError (List β)
  | [] => .ok []
  | x :: xs =>
    match f x with
    | .error e => .error e
    | .ok y =>
      match mapE f xs with
      | .error e => .error e
      | .ok ys => .ok (y :: ys)

/-- Body of `calcular_metricas_inadimplencia` inside its `try`. -/
def calcularMetricasE (t : Table) : Except PyError (List MetricsRow) :=
  match agrupar t (chaveCod t) (chaveNome t) with
  | .error e => .error e
  | .ok grupos =>
    if t.cols.contains "VALOR_TITULO" && t.cols.contains "VALOR_PAGO"
        && t.cols.contains "DIAS_ATRASO" then
      match mapE (metricsOfGroup t.cols) (ordenarGrupos grupos) with
      | .error e => .error e
      | .ok linhas => .ok (ordenarPorDiasMedio linhas)
    else .error (.keyError "VALOR_TITULO")

/-- `calcular_metricas_inadimplencia`: the body with every exception caught
into the `None` sentinel. -/
def calcularMetricasInadimplencia (t : Table) : Option (List MetricsRow) :=
  match calcularMetricasE t with
  | .ok r => some r
  | .error _ => none

/-- Well-formedness of a workbook: every sheet is a well-formed table. -/
def Workbook.Wf (wb : Workbook) : Prop :=
  ∀ p ∈ wb.sheets, Table.Wf p.2

instance (wb : Workbook) : Decidable wb.Wf := by
  unfold Workbook.Wf
  infer_instance

/-!
Concrete inputs used by the counterexamples and witnesses below.
-/

/-- A one-row delinquency table whose group has total invoice value 0 and a
positive paid value. -/
def tabelaC1x : Table :=
  ⟨["COD_UNIFICADO", "NOME_UNIFICADO", "VALOR_TITULO", "VALOR_PAGO", "DIAS_ATRASO"],
   [[.s "9", .s "Zed", .i 0, .i 5, .i 10]]⟩

/-- A group whose total and paid values are both 0. -/
def grupoC1w : (Value × Value) × List (List Value) :=
  ((.s "5", .s "Gil"), [[.s "5", .s "Gil", .q 0, .q 0, .q 3]])

/-- The column list matching `grupoC1w` and the other single-group examples. -/
def colunasPadrao : List String :=
  ["COD_UNIFICADO", "NOME_UNIFICADO", "VALOR_TITULO", "VALOR_PAGO", "DIAS_ATRASO"]

/-- A sheet that, after renaming, has neither `DIAS_ATRASO` nor
`DATA_VENCIMENTO`. -/
def tabelaC2x : Table :=
  ⟨["COD_VENDEDOR", "NOME_VENDEDOR", "VALOR_TITULO"],
   [[.i 4, .s "Davi", .i 100]]⟩

/-- Workbook holding only `tabelaC2x`. -/
def pastaC2x : Workbook := ⟨[("Planilha", tabelaC2x)]⟩

/-- Two groups met in the order `("2","Bia")`, `("1","Ada")` with equal mean
overdue days. -/
def tabelaC3x : Table :=
  ⟨["COD_UNIFICADO", "NOME_UNIFICADO", "VALOR_TITULO", "VALOR_PAGO", "DIAS_ATRASO"],
   [[.s "2", .s "Bia", .i 100, .i 0, .i 10],
    [.s "1", .s "Ada", .i 100, .i 0, .i 10]]⟩

/-- A delinquency sheet whose only record has a null salesperson name. -/
def tabelaC4x : Table :=
  ⟨["COD_VENDEDOR", "NOME_VENDEDOR", "VALOR_TITULO", "DIAS_ATRASO"],
   [[.i 1, .null, .i 100, .i 5]]⟩

/-- Workbook holding only `tabelaC4x` (so the reference sheet is missing). -/
def pastaC4x : Workbook := ⟨[("Dados", tabelaC4x)]⟩

/-- A reference table with raw code and raw name columns and no explicit
unification columns: two codes named `Alice`, one named `Bob`. -/
def tabelaC5w : Table :=
  ⟨["COD", "NOME"],
   [[.s "101", .s "Alice"], [.s "102", .s "Alice"], [.s "103", .s "Bob"]]⟩

/-- The aggregation-arithmetic example group: invoices `[100, 200]`, paid
`[50, 0]`, overdue days `[10, 20]`. -/
def grupoC6w : (Value × Value) × List (List Value) :=
  ((.s "7", .s "Ana"),
   [[.s "7", .s "Ana", .q 100, .q 50, .q 10],
    [.s "7", .s "Ana", .q 200, .q 0, .q 20]])

/-- A single record whose invoice value `0.0625` needs more than two decimal
places. -/
def tabelaC6x : Table :=
  ⟨["COD_UNIFICADO", "NOME_UNIFICADO", "VALOR_TITULO", "VALOR_PAGO", "DIAS_ATRASO"],
   [[.s "3", .s "Cid", .q (mkRat 1 16), .i 0, .i 4]]⟩

/-- A raw table having the legacy column `VALOR` but no `RCA` column. -/
def tabelaC7x : Table := ⟨["VALOR"], [[.i 5]]⟩

/-- A table missing the `VALOR_TITULO` column needed by the aggregation. -/
def tabelaC9w : Table := ⟨["COD_VENDEDOR", "NOME_VENDEDOR"], [[.i 8, .s "Eva"]]⟩

/-- A one-sheet workbook whose sheet lacks every name and date column. -/
def pastaC9w : Workbook := ⟨[("Folha", ⟨["COD_VENDEDOR"], [[.i 6]]⟩)]⟩

/-- A delinquency sheet with the numeric salesperson code `102`. -/
def tabelaC10x : Table :=
  ⟨["COD_VENDEDOR", "NOME_VENDEDOR", "VALOR_TITULO", "DIAS_ATRASO"],
   [[.i 102, .s "Alice B", .i 100, .i 5]]⟩

/-- An explicit unification reference sheet mapping code `102` to pivot code
`101` and unified name `Alice`. -/
def tabelaC10rca : Table :=
  ⟨["RCA", "NOME_RCA", "MESMO COD", "MESMO VEND"],
   [[.i 102, .s "Alice B", .i 101, .s "Alice"]]⟩

/-- Workbook pairing `tabelaC10x` with the explicit reference sheet. -/
def pastaC10x : Workbook :=
  ⟨[("BASE_INADI", tabelaC10x), ("BASE_RCA", tabelaC10rca)]⟩

/-- The normalized table `obter_dados_inadimplencia` produces for
`pastaC10x` (checked by evaluation in the counterexample below). -/
def saidaC10x : Table :=
  ⟨["COD_VENDEDOR", "NOME_VENDEDOR", "VALOR_TITULO", "DIAS_ATRASO", "COD_CLIENTE",
    "NOME_CLIENTE", "DATA_VENCIMENTO", "STATUS_TITULO", "VALOR_PAGO", "DATA_PAGAMENTO",
    "OBSERVACOES", "COD_UNIFICADO", "NOME_UNIFICADO"],
   [[.i 102, .s "Alice B", .i 100, .i 5, .s "Cliente", .s "Cliente", .s "-5",
     .s "EM ABERTO", .i 0, .null, .s "", .s "101", .s "Alice"]]⟩

/-- The normalized table `obter_dados_inadimplencia` produces for
`pastaC4x`: the unified code is the string `"1"`, the unified name is null. -/
def saidaC4x : Table :=
  ⟨["COD_VENDEDOR", "NOME_VENDEDOR", "VALOR_TITULO", "DIAS_ATRASO", "COD_CLIENTE",
    "NOME_CLIENTE", "DATA_VENCIMENTO", "STATUS_TITULO", "VALOR_PAGO", "DATA_PAGAMENTO",
    "OBSERVACOES", "COD_UNIFICADO", "NOME_UNIFICADO"],
   [[.i 1, .null, .i 100, .i 5, .s "Cliente", .s "Cliente", .s "-5",
     .s "EM ABERTO", .i 0, .null, .s "", .s "1", .null]]⟩

/-!
Bridge lemmas: the kernel-reducible rational operations agree with the field
operations of ℚ, and rounding in closed form.
-/

theorem qadd_eq (a b : ℚ) : qadd a b = a + b := by
  rw [qadd, Rat.normalize_eq_mkRat, Rat.mkRat_eq_div]
  have ha : ((a.den : ℚ)) ≠ 0 := by exact_mod_cast a.den_nz
  have hb : ((b.den : ℚ)) ≠ 0 := by exact_mod_cast b.den_nz
  conv_rhs => rw [← Rat.num_div_den a, ← Rat.num_div_den b]
  push_cast
  field_simp

theorem qmul_eq (a b : ℚ) : qmul a b = a * b := by
  rw [qmul, Rat.normalize_eq_mkRat, Rat.mkRat_eq_div]
  have ha : ((a.den : ℚ)) ≠ 0 := by exact_mod_cast a.den_nz
  have hb : ((b.den : ℚ)) ≠ 0 := by exact_mod_cast b.den_nz
  conv_rhs => rw [← Rat.num_div_den a, ← Rat.num_div_den b]
  push_cast
  field_simp

theorem qsub_eq (a b : ℚ) : qsub a b = a - b := by
  rw [qsub, qadd_eq, qmul_eq]
  ring

theorem qdiv_eq (a b : ℚ) : qdiv a b = a / b := by
  rw [qdiv]
  split
  · rename_i h
    rw [Rat.zero_of_num_zero h, div_zero]
  · rename_i h
    rw [Rat.normalize_eq_mkRat, Rat.mkRat_eq_div]
    have ha : ((a.den : ℚ)) ≠ 0 := by exact_mod_cast a.den_nz
    have hb : ((b.den : ℚ)) ≠ 0 := by exact_mod_cast b.den_nz
    have hbn : ((b.num : ℚ)) ≠ 0 := by exact_mod_cast h
    have habs : ((b.num.natAbs : ℚ)) = |(b.num : ℚ)| := by
      rw [Int.cast_natAbs]
      exact Int.cast_abs
    conv_rhs => rw [← Rat.num_div_den a, ← Rat.num_div_den b]
    rcases Int.lt_or_lt_of_ne h with hneg | hpos
    · rw [Int.sign_eq_neg_one_of_neg hneg]
      push_cast
      rw [habs, abs_of_neg (by exact_mod_cast hneg : (b.num : ℚ) < 0)]
      field_simp
    · rw [Int.sign_eq_one_of_pos hpos]
      push_cast
      rw [habs, abs_of_pos (by exact_mod_cast hpos : (0:ℚ) < (b.num : ℚ))]
      field_simp

theorem qofInt_eq (n : ℤ) : qofInt n = (n : ℚ) := by
  rw [qofInt, Rat.normalize_eq_mkRat, Rat.mkRat_eq_div]
  simp

theorem round2q_eq (q : ℚ) : round2q q = (roundHalfEven (q * 100) : ℚ) / 100 := by
  rw [round2q, Rat.normalize_eq_mkRat, Rat.mkRat_eq_div, qmul_eq, qofInt_eq]
  norm_num

/-!
Infrastructure lemmas: column lookup, column assignment, well-formedness.
-/

theorem colIdx_lt_length {cols : List String} {c : String} {i : Nat}
    (h : colIdx cols c = some i) : i < cols.length := by
  induction cols generalizing i with
  | nil => simp [colIdx] at h
  | cons c0 rest ih =>
    by_cases h0 : (c0 == c) = true
    · simp only [colIdx, h0, if_true, Option.some.injEq] at h
      subst h
      simp
    · simp only [colIdx, h0, if_false, Bool.false_eq_true, Option.map_eq_some'] at h
      obtain ⟨j, hj, rfl⟩ := h
      have := ih hj
      simp only [List.length_cons]
      omega

theorem colIdx_isSome_eq_contains (cols : List String) (c : String) :
    (colIdx cols c).isSome = cols.contains c := by
  induction cols with
  | nil => rfl
  | cons c0 rest ih =>
    by_cases h : c0 = c
    · subst h
      simp [colIdx, List.contains_cons]
    · have h1 : (c0 == c) = false := by simp [h]
      have h2 : (c == c0) = false := by simp [Ne.symm h]
      simp only [colIdx, h1, Bool.false_eq_true, if_false, List.contains_cons, h2,
        Bool.false_or, ← ih]
      cases colIdx rest c <;> simp

theorem contains_of_colIdx {cols : List String} {c : String} {i : Nat}
    (h : colIdx cols c = some i) : cols.contains c = true := by
  rw [← colIdx_isSome_eq_contains, h]
  rfl

theorem colIdx_of_contains {cols : List String} {c : String}
    (h : cols.contains c = true) : ∃ i, colIdx cols c = some i := by
  rw [← colIdx_isSome_eq_contains] at h
  cases hi : colIdx cols c with
  | none => rw [hi] at h; simp at h
  | some i => exact ⟨i, rfl⟩

theorem rowGet?_isSome_of_wf {cols : List String} {r : List Value} {c : String}
    (hlen : r.length = cols.length) (hc : cols.contains c = true) :
    ∃ v, rowGet? cols r c = some v := by
  obtain ⟨i, hi⟩ := colIdx_of_contains hc
  have hlt : i < r.length := by rw [hlen]; exact colIdx_lt_length hi
  refine ⟨r[i], ?_⟩
  rw [rowGet?, hi]
  simp [List.getElem?_eq_getElem hlt]

theorem wf_mapAddCol {t : Table} (c : String) (f : List Value → Value)
    (h : t.Wf) : (t.mapAddCol c f).Wf := by
  intro r' hr'
  cases hi : colIdx t.cols c with
  | some i =>
    rw [Table.mapAddCol, hi] at hr' ⊢
    simp only [List.mem_map] at hr'
    obtain ⟨r, hr, rfl⟩ := hr'
    simp [h r hr]
  | none =>
    rw [Table.mapAddCol, hi] at hr' ⊢
    simp only [List.mem_map] at hr'
    obtain ⟨r, hr, rfl⟩ := hr'
    simp [h r hr]

theorem cols_mapAddCol_of_contains {t : Table} {c : String} (f : List Value → Value)
    (h : t.cols.contains c = true) : (t.mapAddCol c f).cols = t.cols := by
  obtain ⟨i, hi⟩ := colIdx_of_contains h
  rw [Table.mapAddCol, hi]

theorem cols_mapAddCol_of_not_contains {t : Table} {c : String} (f : List Value → Value)
    (h : t.cols.contains c = false) : (t.mapAddCol c f).cols = t.cols ++ [c] := by
  cases hi : colIdx t.cols c with
  | some i =>
    rw [contains_of_colIdx hi] at h
    cases h
  | none => rw [Table.mapAddCol, hi]

theorem colIdx_getElem {cols : List String} {c : String} {i : Nat}
    (h : colIdx cols c = some i) : cols[i]? = some c := by
  induction cols generalizing i with
  | nil => simp [colIdx] at h
  | cons c0 rest ih =>
    by_cases h0 : (c0 == c) = true
    · simp only [colIdx, h0, if_true, Option.some.injEq] at h
      subst h
      simp only [beq_iff_eq] at h0
      simp [h0]
    · simp only [colIdx, h0, Bool.false_eq_true, if_false, Option.map_eq_some'] at h
      obtain ⟨j, hj, rfl⟩ := h
      simpa using ih hj

theorem colIdx_append_left {cols l : List String} {c : String} {j : Nat}
    (h : colIdx cols c = some j) : colIdx (cols ++ l) c = some j := by
  induction cols generalizing j with
  | nil => simp [colIdx] at h
  | cons c0 rest ih =>
    by_cases h0 : (c0 == c) = true
    · simp only [colIdx, h0, if_true, Option.some.injEq] at h
      subst h
      simp [colIdx, h0]
    · simp only [colIdx, h0, Bool.false_eq_true, if_false, Option.map_eq_some'] at h
      obtain ⟨j', hj, rfl⟩ := h
      simp [colIdx, h0, List.cons_append, ih hj]

theorem colIdx_append_none {cols : List String} {c d : String}
    (h : colIdx cols c = none) :
    colIdx (cols ++ [d]) c = if (d == c) = true then some cols.length else none := by
  induction cols with
  | nil => simp [colIdx]
  | cons c0 rest ih =>
    by_cases h0 : (c0 == c) = true
    · simp [colIdx, h0] at h
    · simp only [colIdx, h0, Bool.false_eq_true, if_false] at h
      have hrest : colIdx rest c = none := by
        cases hr : colIdx rest c with
        | none => rfl
        | some j => rw [hr] at h; simp at h
      by_cases hd : (d == c) = true <;>
        simp [List.cons_append, colIdx, h0, ih hrest, hd]

theorem rows_mapAddCol {t : Table} {c : String} {f : List Value → Value}
    (hWf : t.Wf) {r' : List Value} (hr' : r' ∈ (t.mapAddCol c f).rows) :
    ∃ r ∈ t.rows,
      rowGet? (t.mapAddCol c f).cols r' c = some (f r) ∧
      ∀ c', c' ≠ c → rowGet? (t.mapAddCol c f).cols r' c' = rowGet? t.cols r c' := by
  cases hi : colIdx t.cols c with
  | some i =>
    rw [Table.mapAddCol, hi] at hr' ⊢
    simp only [List.mem_map] at hr'
    obtain ⟨r, hr, rfl⟩ := hr'
    refine ⟨r, hr, ?_, ?_⟩
    · rw [rowGet?, hi]
      have hlt : i < r.length := by
        rw [hWf r hr]
        exact colIdx_lt_length hi
      simp [List.getElem?_set_self hlt]
    · intro c' hc'
      rw [rowGet?, rowGet?]
      cases hj : colIdx t.cols c' with
      | none => rfl
      | some j =>
        have hne : i ≠ j := by
          intro hij
          subst hij
          have h1 := colIdx_getElem hi
          have h2 := colIdx_getElem hj
          rw [h1] at h2
          exact hc' (by injection h2 with hh; exact hh.symm)
        simp [List.getElem?_set_ne hne]
  | none =>
    rw [Table.mapAddCol, hi] at hr' ⊢
    simp only [List.mem_map] at hr'
    obtain ⟨r, hr, rfl⟩ := hr'
    have hlen : r.length = t.cols.length := hWf r hr
    refine ⟨r, hr, ?_, ?_⟩
    · rw [rowGet?, colIdx_append_none hi]
      simp only [beq_self_eq_true, if_true]
      rw [← hlen]
      simp [List.getElem?_concat_length r (f r)]
    · intro c' hc'
      rw [rowGet?, rowGet?]
      cases hj : colIdx t.cols c' with
      | none =>
        rw [colIdx_append_none hj]
        have : (c == c') = false := by
          simp only [beq_eq_false_iff_ne, ne_eq]
          exact fun hh => hc' hh.symm
        simp [this]
      | some j =>
        rw [colIdx_append_left hj]
        have hjl : j < r.length := by
          rw [hlen]
          exact colIdx_lt_length hj
        simp [List.getElem?_append, hjl]

/-!
Order lemmas for the stable insertion sort.
-/

theorem mem_insort {lt : α → α → Bool} {x y : α} :
    ∀ {l : List α}, y ∈ insort lt x l ↔ y = x ∨ y ∈ l := by
  intro l
  induction l with
  | nil => simp [insort]
  | cons z zs ih =>
    by_cases h : lt z x = true
    · simp only [insort, h, if_true, List.mem_cons, ih]
      tauto
    · rw [insort, if_neg h]
      simp

theorem mem_isort {lt : α → α → Bool} {y : α} :
    ∀ {l : List α}, y ∈ isort lt l ↔ y ∈ l := by
  intro l
  induction l with
  | nil => simp [isort]
  | cons x xs ih => simp [isort, mem_insort, ih]

theorem pairwise_insort_le {lt : α → α → Bool}
    (hasym : ∀ a b, lt a b = true → lt b a = false)
    (hweak : ∀ a b c, lt a c = true → lt a b = true ∨ lt b c = true)
    (x : α) :
    ∀ {l : List α}, l.Pairwise (fun a b => lt b a = false) →
      (insort lt x l).Pairwise (fun a b => lt b a = false) := by
  intro l hl
  induction l with
  | nil => simp [insort]
  | cons y ys ih =>
    rw [List.pairwise_cons] at hl
    obtain ⟨hy, hys⟩ := hl
    by_cases h : lt y x = true
    · rw [insort, if_pos h, List.pairwise_cons]
      refine ⟨?_, ih hys⟩
      intro z hz
      rw [mem_insort] at hz
      rcases hz with rfl | hz
      · exact hasym _ _ h
      · exact hy z hz
    · rw [insort, if_neg h, List.pairwise_cons]
      have hfx : lt y x = false := by
        cases hb : lt y x
        · rfl
        · exact absurd hb h
      refine ⟨?_, List.pairwise_cons.mpr ⟨hy, hys⟩⟩
      intro z hz
      rcases List.mem_cons.mp hz with rfl | hz
      · exact hfx
      · cases hb : lt z x
        · rfl
        · rcases hweak z y x hb with h1 | h1
          · rw [hy z hz] at h1
            cases h1
          · rw [hfx] at h1
            cases h1

theorem pairwise_isort_le {lt : α → α → Bool}
    (hasym : ∀ a b, lt a b = true → lt b a = false)
    (hweak : ∀ a b c, lt a c = true → lt a b = true ∨ lt b c = true) :
    ∀ (l : List α), (isort lt l).Pairwise (fun a b => lt b a = false) := by
  intro l
  induction l with
  | nil => simp [isort]
  | cons x xs ih =>
    rw [isort]
    exact pairwise_insort_le hasym hweak x ih

theorem pairwise_insort_stab {lt : α → α → Bool} {K : α → α → Prop} (x : α) :
    ∀ {l : List α}, (∀ y ∈ l, K x y) →
      l.Pairwise (fun a b => lt a b = true ∨ K a b) →
      (insort lt x l).Pairwise (fun a b => lt a b = true ∨ K a b) := by
  intro l hK hl
  induction l with
  | nil => simp [insort]
  | cons y ys ih =>
    rw [List.pairwise_cons] at hl
    obtain ⟨hy, hys⟩ := hl
    by_cases h : lt y x = true
    · rw [insort, if_pos h, List.pairwise_cons]
      refine ⟨?_, ih (fun z hz => hK z (List.mem_cons_of_mem _ hz)) hys⟩
      intro z hz
      rw [mem_insort] at hz
      rcases hz with rfl | hz
      · exact Or.inl h
      · exact hy z hz
    · rw [insort, if_neg h, List.pairwise_cons]
      refine ⟨?_, List.pairwise_cons.mpr ⟨hy, hys⟩⟩
      intro z hz
      exact Or.inr (hK z hz)

theorem pairwise_isort_stab {lt : α → α → Bool} {K : α → α → Prop} :
    ∀ {l : List α}, l.Pairwise K →
      (isort lt l).Pairwise (fun a b => lt a b = true ∨ K a b) := by
  intro l hl
  induction l with
  | nil => simp [isort]
  | cons x xs ih =>
    rw [List.pairwise_cons] at hl
    obtain ⟨hx, hxs⟩ := hl
    rw [isort]
    refine pairwise_insort_stab x ?_ (ih hxs)
    intro y hy
    rw [mem_isort] at hy
    exact hx y hy

theorem strLtL_asymm : ∀ (as bs : List Char), strLtL as bs = true → strLtL bs as = false := by
  intro as
  induction as with
  | nil =>
    intro bs h
    cases bs with
    | nil => simp [strLtL] at h
    | cons b bs => simp [strLtL]
  | cons a as ih =>
    intro bs h
    cases bs with
    | nil => simp [strLtL] at h
    | cons b bs =>
      rw [strLtL] at h ⊢
      by_cases h1 : a.toNat < b.toNat
      · rw [if_neg (by omega : ¬ b.toNat < a.toNat), if_pos h1]
      · by_cases h2 : b.toNat < a.toNat
        · rw [if_neg h1, if_pos h2] at h
          cases h
        · rw [if_neg h1, if_neg h2] at h
          rw [if_neg h2, if_neg h1]
          exact ih bs h

theorem strLtL_weak : ∀ (as bs cs : List Char), strLtL as cs = true →
    strLtL as bs = true ∨ strLtL bs cs = true := by
  intro as
  induction as with
  | nil =>
    intro bs cs h
    cases cs with
    | nil => simp [strLtL] at h
    | cons c cs =>
      cases bs with
      | nil => exact Or.inr h
      | cons b bs => exact Or.inl (by simp [strLtL])
  | cons a as ih =>
    intro bs cs h
    cases cs with
    | nil => simp [strLtL] at h
    | cons c cs =>
      cases bs with
      | nil => exact Or.inr (by simp [strLtL])
      | cons b bs =>
        rw [strLtL] at h
        by_cases h1 : a.toNat < c.toNat
        · by_cases h2 : a.toNat < b.toNat
          · exact Or.inl (by rw [strLtL, if_pos h2])
          · refine Or.inr ?_
            rw [strLtL, if_pos (by omega : b.toNat < c.toNat)]
        · by_cases h2 : c.toNat < a.toNat
          · rw [if_neg h1, if_pos h2] at h
            cases h
          · rw [if_neg h1, if_neg h2] at h
            by_cases h3 : a.toNat < b.toNat
            · exact Or.inl (by rw [strLtL, if_pos h3])
            · by_cases h4 : b.toNat < a.toNat
              · refine Or.inr ?_
                rw [strLtL, if_pos (by omega : b.toNat < c.toNat)]
              · rcases ih bs cs h with h5 | h5
                · exact Or.inl (by rw [strLtL, if_neg h3, if_neg h4]; exact h5)
                · refine Or.inr ?_
                  rw [strLtL, if_neg (by omega : ¬ b.toNat < c.toNat),
                    if_neg (by omega : ¬ c.toNat < b.toNat)]
                  exact h5

theorem pfLt_asymm (a b : PFloat) (h : pfLt a b = true) : pfLt b a = false := by
  cases a <;> cases b <;>
    simp only [pfLt, PFloat.srank, decide_eq_true_eq, decide_eq_false_iff_not] at h ⊢ <;>
    first
    | exact lt_asymm h

theorem pfLt_weak (a b c : PFloat) (h : pfLt a c = true) :
    pfLt a b = true ∨ pfLt b c = true := by
  cases a <;> cases b <;> cases c <;>
    simp only [pfLt, PFloat.srank, decide_eq_true_eq, decide_eq_false_iff_not] at h ⊢ <;>
    first
    | (rename_i x y z
       rcases lt_or_le x y with h1 | h1
       · exact Or.inl h1
       · exact Or.inr (lt_of_le_of_lt h1 h))
    | omega

theorem valLt_asymm (a b : Value) (h : valLt a b = true) : valLt b a = false := by
  cases a <;> cases b <;>
    simp only [valLt, Value.toQ, Value.vrank, strLt, decide_eq_true_eq,
      decide_eq_false_iff_not] at h ⊢ <;>
    first
    | exact lt_asymm h
    | exact strLtL_asymm _ _ h

theorem decide_lt_weak {x y z : ℚ} (h : x < z) :
    decide (x < y) = true ∨ decide (y < z) = true := by
  rcases lt_or_le x y with h1 | h1
  · exact Or.inl (by rw [decide_eq_true_eq]; exact h1)
  · exact Or.inr (by rw [decide_eq_true_eq]; exact lt_of_le_of_lt h1 h)

theorem valLt_weak (a b c : Value) (h : valLt a c = true) :
    valLt a b = true ∨ valLt b c = true := by
  cases a <;> cases b <;> cases c <;>
    simp only [valLt, Value.toQ, Value.vrank, strLt] at h ⊢
  all_goals
    first
    | exact Or.inl rfl
    | exact Or.inr rfl
    | exact strLtL_weak _ _ _ h
    | exact decide_lt_weak h
    | exact decide_lt_weak (of_decide_eq_true h)
    | (simp only [decide_eq_true_eq] at h; omega)

theorem chaveLt_asymm (a b : Value × Value) (h : chaveLt a b = true) :
    chaveLt b a = false := by
  rw [chaveLt] at h ⊢
  rw [Bool.or_eq_true] at h
  rcases h with h | h
  · rw [valLt_asymm _ _ h]
    have he : valEqB b.1 a.1 = false := by
      rw [valEqB, h]
      simp
    rw [he]
    rfl
  · rw [Bool.and_eq_true] at h
    obtain ⟨he, h2⟩ := h
    rw [valEqB, Bool.and_eq_true, Bool.not_eq_true', Bool.not_eq_true'] at he
    obtain ⟨hab, hba⟩ := he
    rw [hba]
    have he' : valEqB b.1 a.1 = true := by
      rw [valEqB, hab, hba]
      rfl
    rw [he', valLt_asymm _ _ h2]
    rfl

theorem chaveLt_weak (a b c : Value × Value) (h : chaveLt a c = true) :
    chaveLt a b = true ∨ chaveLt b c = true := by
  rw [chaveLt] at h
  rw [Bool.or_eq_true] at h
  rcases h with h | h
  · rcases valLt_weak a.1 b.1 c.1 h with h' | h'
    · exact Or.inl (by rw [chaveLt, h']; rfl)
    · exact Or.inr (by rw [chaveLt, h']; rfl)
  · rw [Bool.and_eq_true] at h
    obtain ⟨he, h2⟩ := h
    rw [valEqB, Bool.and_eq_true, Bool.not_eq_true', Bool.not_eq_true'] at he
    obtain ⟨hac, hca⟩ := he
    by_cases hab : valLt a.1 b.1 = true
    · exact Or.inl (by rw [chaveLt, hab]; rfl)
    · by_cases hbc : valLt b.1 c.1 = true
      · exact Or.inr (by rw [chaveLt, hbc]; rfl)
      · rw [Bool.not_eq_true] at hab hbc
        have hba : valLt b.1 a.1 = false := by
          cases hb : valLt b.1 a.1
          · rfl
          · rcases valLt_weak b.1 c.1 a.1 hb with h' | h'
            · rw [hbc] at h'
              cases h'
            · rw [hca] at h'
              cases h'
        have hcb : valLt c.1 b.1 = false := by
          cases hb : valLt c.1 b.1
          · rfl
          · rcases valLt_weak c.1 a.1 b.1 hb with h' | h'
            · rw [hca] at h'
              cases h'
            · rw [hab] at h'
              cases h'
        rcases valLt_weak a.2 b.2 c.2 h2 with h' | h'
        · refine Or.inl ?_
          rw [chaveLt, hab, valEqB, hab, hba, h']
          rfl
        · refine Or.inr ?_
          rw [chaveLt, hbc, valEqB, hbc, hcb, h']
          rfl

theorem mapE_ok_mem {f : α → Except PyError β} :
    ∀ {l : List α} {out : List β}, mapE f l = .ok out →
      ∀ b ∈ out, ∃ a ∈ l, f a = .ok b := by
  intro l
  induction l with
  | nil =>
    intro out h b hb
    rw [mapE] at h
    injection h with h
    subst h
    cases hb
  | cons x xs ih =>
    intro out h b hb
    rw [mapE] at h
    cases hfx : f x with
    | error e => rw [hfx] at h; cases h
    | ok y =>
      rw [hfx] at h
      cases hxs : mapE f xs with
      | error e => rw [hxs] at h; cases h
      | ok ys =>
        rw [hxs] at h
        injection h with h
        subst h
        rcases List.mem_cons.mp hb with rfl | hb
        · exact ⟨x, List.mem_cons_self _ _, hfx⟩
        · obtain ⟨a, ha, hfa⟩ := ih hxs b hb
          exact ⟨a, List.mem_cons_of_mem _ ha, hfa⟩

theorem mapE_ok_pairwise {R : α → α → Prop} {S : β → β → Prop} {f : α → Except PyError β}
    (hf : ∀ a b ra rb, R a b → f a = .ok ra → f b = .ok rb → S ra rb) :
    ∀ {l : List α} {out : List β}, mapE f l = .ok out → l.Pairwise R → out.Pairwise S := by
  intro l
  induction l with
  | nil =>
    intro out h _
    rw [mapE] at h
    injection h with h
    subst h
    exact List.Pairwise.nil
  | cons x xs ih =>
    intro out h hp
    rw [mapE] at h
    cases hfx : f x with
    | error e => rw [hfx] at h; cases h
    | ok y =>
      rw [hfx] at h
      cases hxs : mapE f xs with
      | error e => rw [hxs] at h; cases h
      | ok ys =>
        rw [hxs] at h
        injection h with h
        subst h
        rw [List.pairwise_cons] at hp
        obtain ⟨hx, hp⟩ := hp
        rw [List.pairwise_cons]
        refine ⟨?_, ih hxs hp⟩
        intro b hb
        obtain ⟨a, ha, hfa⟩ := mapE_ok_mem hxs b hb
        exact hf x a y b (hx a ha) hfx hfa

theorem metricsOfGroup_ok_key {cols : List String}
    {g : (Value × Value) × List (List Value)} {m : MetricsRow}
    (h : metricsOfGroup cols g = .ok m) : m.cod = g.1.1 ∧ m.nome = g.1.2 := by
  rw [metricsOfGroup] at h
  split at h
  · cases h
  · injection h with h
    subst h
    exact ⟨rfl, rfl⟩

/-- C3 (counterexample): the encounter order of the two equal-mean groups is
`("2","Bia")` then `("1","Ada")`, yet the aggregated output lists `Ada`
first — `groupby(sort=True)` orders groups by key, not in encounter order, so
the claim "groups with equal mean_overdue_days appear in their original
group-encounter order" is false on this input. -/
theorem claimC3_counterexample :
    tabelaC3x.rows.head? = some [.s "2", .s "Bia", .i 100, .i 0, .i 10] ∧
    calcularMetricasInadimplencia tabelaC3x = some
      [⟨.s "1", .s "Ada", .num 100, .num 1, .num 0, .num 10, .num 100, .num 100⟩,
       ⟨.s "2", .s "Bia", .num 100, .num 1, .num 0, .num 10, .num 100, .num 100⟩] := by
  constructor
  · decide
  · decide

/-- C3 (amended): every successful result of `calcular_metricas_inadimplencia`
is sorted ascending by `DIAS_ATRASO_MEDIO` (`NaN` last), and two rows with
equal (tied) means appear in ascending order of their `(code, name)` group
key — the order `groupby(sort=True)` produced — not in group-encounter
order.  (The final sort is modelled stable, which matches numpy's insertion
sort below its small-array cutoff; pandas' default quicksort gives no
guarantee for larger inputs, where only the ascending-by-mean part holds.) -/
theorem claimC3_amended (t : Table) (rows : List MetricsRow)
    (h : calcularMetricasE t = .ok rows) :
    rows.Pairwise (fun a b =>
      pfLt a.diasAtrasoMedio b.diasAtrasoMedio = true ∨
      (pfLt a.diasAtrasoMedio b.diasAtrasoMedio = false ∧
       pfLt b.diasAtrasoMedio a.diasAtrasoMedio = false ∧
       chaveLt (b.cod, b.nome) (a.cod, a.nome) = false)) := by
  rw [calcularMetricasE] at h
  cases hg : agrupar t (chaveCod t) (chaveNome t) with
  | error e =>
    simp only [hg] at h
    exact Except.noConfusion h
  | ok grupos =>
    simp only [hg] at h
    split at h
    · cases hm : mapE (metricsOfGroup t.cols) (ordenarGrupos grupos) with
      | error e =>
        simp only [hm] at h
        exact Except.noConfusion h
      | ok linhas =>
        simp only [hm] at h
        injection h with h
        subst h
        have hKeys : (ordenarGrupos grupos).Pairwise
            (fun g1 g2 => chaveLt g2.1 g1.1 = false) := by
          rw [ordenarGrupos]
          exact @pairwise_isort_le _ (fun g h => chaveLt g.1 h.1)
            (fun a b hh => chaveLt_asymm a.1 b.1 hh)
            (fun a b c hh => chaveLt_weak a.1 b.1 c.1 hh)
            grupos
        have hLin : linhas.Pairwise
            (fun m1 m2 => chaveLt (m2.cod, m2.nome) (m1.cod, m1.nome) = false) := by
          refine mapE_ok_pairwise ?_ hm hKeys
          intro g1 g2 m1 m2 hR h1 h2
          obtain ⟨hc1, hn1⟩ := metricsOfGroup_ok_key h1
          obtain ⟨hc2, hn2⟩ := metricsOfGroup_ok_key h2
          rw [hc1, hn1, hc2, hn2, Prod.mk.eta, Prod.mk.eta]
          exact hR
        have hS : (ordenarPorDiasMedio linhas).Pairwise
            (fun a b => pfLt b.diasAtrasoMedio a.diasAtrasoMedio = false) := by
          rw [ordenarPorDiasMedio]
          exact @pairwise_isort_le _ (fun a b => pfLt a.diasAtrasoMedio b.diasAtrasoMedio)
            (fun a b hh => pfLt_asymm a.diasAtrasoMedio b.diasAtrasoMedio hh)
            (fun a b c hh => pfLt_weak a.diasAtrasoMedio b.diasAtrasoMedio c.diasAtrasoMedio hh)
            linhas
        have hT : (ordenarPorDiasMedio linhas).Pairwise
            (fun a b => pfLt a.diasAtrasoMedio b.diasAtrasoMedio = true ∨
              chaveLt (b.cod, b.nome) (a.cod, a.nome) = false) := by
          rw [ordenarPorDiasMedio]
          exact @pairwise_isort_stab _ (fun a b => pfLt a.diasAtrasoMedio b.diasAtrasoMedio)
            (fun m1 m2 => chaveLt (m2.cod, m2.nome) (m1.cod, m1.nome) = false)
            linhas hLin
        refine (hS.and hT).imp ?_
        intro a b hab
        obtain ⟨h1, h2⟩ := hab
        cases hd : pfLt a.diasAtrasoMedio b.diasAtrasoMedio with
        | true => exact Or.inl rfl
        | false =>
          rcases h2 with h2 | h2
          · rw [hd] at h2
            cases h2
          · exact Or.inr ⟨rfl, h1, h2⟩
    · cases h

/-- C3 (witness): the amended sorting statement instantiated on the concrete
two-group table. -/
theorem claimC3_witness :
    calcularMetricasE tabelaC3x = .ok
      [⟨.s "1", .s "Ada", .num 100, .num 1, .num 0, .num 10, .num 100, .num 100⟩,
       ⟨.s "2", .s "Bia", .num 100, .num 1, .num 0, .num 10, .num 100, .num 100⟩] ∧
    ([⟨.s "1", .s "Ada", .num 100, .num 1, .num 0, .num 10, .num 100, .num 100⟩,
      ⟨.s "2", .s "Bia", .num 100, .num 1, .num 0, .num 10, .num 100, .num 100⟩] :
        List MetricsRow).Pairwise (fun a b =>
      pfLt a.diasAtrasoMedio b.diasAtrasoMedio = true ∨
      (pfLt a.diasAtrasoMedio b.diasAtrasoMedio = false ∧
       pfLt b.diasAtrasoMedio a.diasAtrasoMedio = false ∧
       chaveLt (b.cod, b.nome) (a.cod, a.nome) = false)) :=
  ⟨by decide, claimC3_amended tabelaC3x _ (by decide)⟩

/-!
Evaluation lemmas for the aggregation of a group of purely numeric cells.
-/

theorem sumQ_map_q (qs : List ℚ) : sumQ (qs.map Value.q) = qs.sum := by
  induction qs with
  | nil => rfl
  | cons x xs ih =>
    simp only [List.map_cons, sumQ, Value.toQ, List.sum_cons]
    rw [ih, qadd_eq]

theorem countNN_map_q (qs : List ℚ) : countNN (qs.map Value.q) = qs.length := by
  rw [countNN]
  induction qs with
  | nil => rfl
  | cons x xs ih => simpa [Value.toQ] using ih

theorem any_isStr_map_q (qs : List ℚ) : (qs.map Value.q).any Value.isStr = false := by
  induction qs with
  | nil => rfl
  | cons x xs ih =>
    simp only [List.map_cons, List.any_cons, Value.isStr, Bool.false_or]
    exact ih

theorem roundHalfEven_intCast (n : ℤ) : roundHalfEven ((n : ℚ)) = n := by
  rw [roundHalfEven]
  have hf : ((n : ℚ)).floor = n := rfl
  rw [hf]
  have hr : qsub (n : ℚ) (qofInt n) = 0 := by
    rw [qsub_eq, qofInt_eq, sub_self]
  rw [hr]
  rw [if_pos]
  rw [Rat.mkRat_eq_div]
  norm_num

theorem round2q_int (n : ℤ) : round2q ((n : ℚ)) = (n : ℚ) := by
  rw [round2q_eq]
  have : ((n : ℚ)) * 100 = (((n * 100 : ℤ) : ℚ)) := by push_cast; ring
  rw [this, roundHalfEven_intCast]
  push_cast
  field_simp

theorem metricsOfGroup_q (cols : List String) (k : Value × Value)
    (rows : List (List Value)) (qs ps ds : List ℚ)
    (hv : rows.map (fun r => cellD cols r "VALOR_TITULO") = qs.map Value.q)
    (hp : rows.map (fun r => cellD cols r "VALOR_PAGO") = ps.map Value.q)
    (hd : rows.map (fun r => cellD cols r "DIAS_ATRASO") = ds.map Value.q) :
    metricsOfGroup cols (k, rows) = .ok
      ⟨k.1, k.2,
       .num (round2q qs.sum),
       .num ((qs.length : ℚ)),
       .num (round2q ps.sum),
       (if ds.length = 0 then PFloat.nan else .num (round2q (ds.sum / (ds.length : ℚ)))),
       .num (round2q qs.sum - round2q ps.sum),
       pfRound2 (pfMul100 (pfDiv
         (.num (round2q qs.sum - round2q ps.sum)) (.num (round2q qs.sum))))⟩ := by
  rw [metricsOfGroup]
  simp only [hv, hp, hd, any_isStr_map_q, Bool.or_self, Bool.false_eq_true, if_false,
    sumQ_map_q, countNN_map_q]
  have htotal : pfRound2 (PFloat.num qs.sum) = PFloat.num (round2q qs.sum) := rfl
  have hpago : pfRound2 (PFloat.num ps.sum) = PFloat.num (round2q ps.sum) := rfl
  have hqtd : pfRound2 (PFloat.num (qofInt ((qs.length : Int))))
      = PFloat.num ((qs.length : ℚ)) := by
    show PFloat.num (round2q (qofInt ((qs.length : Int)))) = PFloat.num ((qs.length : ℚ))
    rw [qofInt_eq, round2q_int]
    norm_num
  have hmedio : pfRound2 (if ds.length = 0 then PFloat.nan
        else PFloat.num (qdiv ds.sum (qofInt ((ds.length : Int)))))
      = (if ds.length = 0 then PFloat.nan
        else PFloat.num (round2q (ds.sum / (ds.length : ℚ)))) := by
    by_cases hlen : ds.length = 0
    · rw [if_pos hlen, if_pos hlen]
      rfl
    · rw [if_neg hlen, if_neg hlen]
      show PFloat.num (round2q (qdiv ds.sum (qofInt ((ds.length : Int)))))
        = PFloat.num (round2q (ds.sum / (ds.length : ℚ)))
      rw [qdiv_eq, qofInt_eq]
      norm_num
  have haberto : pfSub (PFloat.num (round2q qs.sum)) (PFloat.num (round2q ps.sum))
      = PFloat.num (round2q qs.sum - round2q ps.sum) := by
    show PFloat.num (qsub (round2q qs.sum) (round2q ps.sum)) = _
    rw [qsub_eq]
  rw [htotal, hpago, hqtd, hmedio, haberto]

theorem pfDiv_num_zero (a : ℚ) : pfDiv (PFloat.num a) (PFloat.num 0) =
    if a = 0 then PFloat.nan else if 0 < a then PFloat.inf else PFloat.ninf := by
  simp [pfDiv]

/-- C1 (counterexample): a group whose invoice values sum to 0 but whose paid
value is 5 gets `delinquency_percent = -inf` — an infinity, not the null
sentinel (`isna` is false on it) — so "never infinity" is false on this
input.  The computation still does not raise. -/
theorem claimC1_counterexample :
    calcularMetricasInadimplencia tabelaC1x = some
      [⟨.s "9", .s "Zed", .num 0, .num 1, .num 5, .num 10, .num (-5), .ninf⟩] ∧
    PFloat.isna PFloat.ninf = false := by
  constructor
  · decide
  · rfl

/-- C1 (amended): for a group of numeric cells whose invoice values sum to 0,
the aggregation never raises; the percentage is `NaN` — which pandas `isna`
treats as the null sentinel — exactly when the (rounded) paid sum is also 0,
and otherwise it is a signed infinity (`-inf` for positive paid, `+inf` for
negative), never a finite artifact. -/
theorem claimC1_amended (cols : List String) (k : Value × Value)
    (rows : List (List Value)) (qs ps ds : List ℚ)
    (hv : rows.map (fun r => cellD cols r "VALOR_TITULO") = qs.map Value.q)
    (hp : rows.map (fun r => cellD cols r "VALOR_PAGO") = ps.map Value.q)
    (hd : rows.map (fun r => cellD cols r "DIAS_ATRASO") = ds.map Value.q)
    (h0 : qs.sum = 0) :
    ∃ m, metricsOfGroup cols (k, rows) = .ok m ∧
      m.valorTotal = PFloat.num 0 ∧
      (round2q ps.sum = 0 →
        m.percInadimplencia = PFloat.nan ∧ m.percInadimplencia.isna = true) ∧
      (0 < round2q ps.sum → m.percInadimplencia = PFloat.ninf) ∧
      (round2q ps.sum < 0 → m.percInadimplencia = PFloat.inf) := by
  have hz : round2q (0 : ℚ) = 0 := by
    have := round2q_int 0
    norm_num at this
    exact this
  refine ⟨_, metricsOfGroup_q cols k rows qs ps ds hv hp hd, ?_, ?_, ?_, ?_⟩
  · simp only [h0, hz]
  · intro hps
    simp only [h0, hz, hps]
    norm_num [pfDiv, pfMul100, pfRound2, PFloat.isna]
  · intro hps
    simp only [h0, hz]
    have ha : (0:ℚ) - round2q ps.sum ≠ 0 := by linarith
    have hb : ¬ (0:ℚ) < 0 - round2q ps.sum := by linarith
    show pfRound2 (pfMul100 (pfDiv (PFloat.num (0 - round2q ps.sum)) (PFloat.num 0)))
      = PFloat.ninf
    rw [pfDiv_num_zero, if_neg ha, if_neg hb]
    rfl
  · intro hps
    simp only [h0, hz]
    have ha : (0:ℚ) - round2q ps.sum ≠ 0 := by linarith
    have hb : (0:ℚ) < 0 - round2q ps.sum := by linarith
    show pfRound2 (pfMul100 (pfDiv (PFloat.num (0 - round2q ps.sum)) (PFloat.num 0)))
      = PFloat.inf
    rw [pfDiv_num_zero, if_neg ha, if_pos hb]
    rfl

/-- C1 (witness): the amended statement instantiated on a group with invoice
sum 0 and paid sum 0. -/
theorem claimC1_witness :
    (([0] : List ℚ).sum = 0) ∧
    (∃ m, metricsOfGroup colunasPadrao (grupoC1w.1, grupoC1w.2) = .ok m ∧
      m.valorTotal = PFloat.num 0 ∧
      (round2q ([0] : List ℚ).sum = 0 →
        m.percInadimplencia = PFloat.nan ∧ m.percInadimplencia.isna = true) ∧
      (0 < round2q ([0] : List ℚ).sum → m.percInadimplencia = PFloat.ninf) ∧
      (round2q ([0] : List ℚ).sum < 0 → m.percInadimplencia = PFloat.inf)) :=
  ⟨by norm_num,
   claimC1_amended colunasPadrao grupoC1w.1 grupoC1w.2 [0] [0] [3]
     (by decide) (by decide) (by decide) (by norm_num)⟩

/-- C6 (counterexample): a single record with invoice value `0.0625` gets
`total_delinquent_value = 0.06`, not the exact sum `0.0625` — the blanket
`.round(2)` of the source also rounds the sums, so "total_delinquent_value =
sum of invoice_value" is false as stated. -/
theorem claimC6_counterexample :
    (tabelaC6x.rows.map (fun r => cellD tabelaC6x.cols r "VALOR_TITULO"))
      = [Value.q (mkRat 1 16)] ∧
    calcularMetricasInadimplencia tabelaC6x = some
      [⟨.s "3", .s "Cid", .num (mkRat 3 50), .num 1, .num 0, .num 4,
        .num (mkRat 3 50), .num 100⟩] ∧
    mkRat 3 50 ≠ mkRat 1 16 := by
  refine ⟨by decide, by decide, by decide⟩

/-- C6 (amended): for a group of numeric cells the aggregator returns
`round2(sum invoice)`, the row count, `round2(sum paid)`, the mean overdue
days rounded to 2 decimals, `open = rounded total - rounded paid`, and
`percent = round2(open / rounded-total * 100)` — the sums are rounded to 2
decimals by the blanket `.round(2)`, which is the only divergence from the
claim's formulas (the concrete `[100,200]/[50,0]/[10,20]` example is
unaffected and yields `300, 2, 50, 15.0, 250, 83.33`, see the witness). -/
theorem claimC6_amended (cols : List String) (k : Value × Value)
    (rows : List (List Value)) (qs ps ds : List ℚ)
    (hv : rows.map (fun r => cellD cols r "VALOR_TITULO") = qs.map Value.q)
    (hp : rows.map (fun r => cellD cols r "VALOR_PAGO") = ps.map Value.q)
    (hd : rows.map (fun r => cellD cols r "DIAS_ATRASO") = ds.map Value.q)
    (hlen : ds ≠ [])
    (h0 : round2q qs.sum ≠ 0) :
    metricsOfGroup cols (k, rows) = .ok
      ⟨k.1, k.2,
       .num (round2q qs.sum),
       .num ((rows.length : ℚ)),
       .num (round2q ps.sum),
       .num (round2q (ds.sum / (ds.length : ℚ))),
       .num (round2q qs.sum - round2q ps.sum),
       .num (round2q ((round2q qs.sum - round2q ps.sum) / round2q qs.sum * 100))⟩ := by
  have hql : qs.length = rows.length := by
    have := congrArg List.length hv
    simpa using this.symm
  have hd0 : ds.length ≠ 0 := fun hh => hlen (List.length_eq_zero.mp hh)
  have hperc : pfRound2 (pfMul100 (pfDiv
      (PFloat.num (round2q qs.sum - round2q ps.sum)) (PFloat.num (round2q qs.sum))))
      = PFloat.num (round2q ((round2q qs.sum - round2q ps.sum) / round2q qs.sum * 100)) := by
    have hstep : pfDiv (PFloat.num (round2q qs.sum - round2q ps.sum))
        (PFloat.num (round2q qs.sum))
        = PFloat.num (qdiv (round2q qs.sum - round2q ps.sum) (round2q qs.sum)) := by
      simp [pfDiv, h0]
    rw [hstep]
    show PFloat.num (round2q (qmul (qdiv (round2q qs.sum - round2q ps.sum)
      (round2q qs.sum)) (qofInt 100))) = _
    rw [qdiv_eq, qmul_eq, qofInt_eq]
    norm_num
  rw [metricsOfGroup_q cols k rows qs ps ds hv hp hd, hperc, if_neg hd0, hql]

/-- C6 (witness): the amended aggregation formulas instantiated on the
`[100,200]/[50,0]/[10,20]` group, together with the evaluation of those
formulas to the claim's concrete numbers `300, 2, 50, 15.0, 250, 83.33`. -/
theorem claimC6_witness :
    metricsOfGroup colunasPadrao (grupoC6w.1, grupoC6w.2) = .ok
      ⟨grupoC6w.1.1, grupoC6w.1.2,
       .num (round2q ([100, 200] : List ℚ).sum),
       .num ((grupoC6w.2.length : ℚ)),
       .num (round2q ([50, 0] : List ℚ).sum),
       .num (round2q (([10, 20] : List ℚ).sum / (([10, 20] : List ℚ).length : ℚ))),
       .num (round2q ([100, 200] : List ℚ).sum - round2q ([50, 0] : List ℚ).sum),
       .num (round2q ((round2q ([100, 200] : List ℚ).sum -
         round2q ([50, 0] : List ℚ).sum) / round2q ([100, 200] : List ℚ).sum * 100))⟩ ∧
    (⟨grupoC6w.1.1, grupoC6w.1.2,
       .num (round2q ([100, 200] : List ℚ).sum),
       .num ((grupoC6w.2.length : ℚ)),
       .num (round2q ([50, 0] : List ℚ).sum),
       .num (round2q (([10, 20] : List ℚ).sum / (([10, 20] : List ℚ).length : ℚ))),
       .num (round2q ([100, 200] : List ℚ).sum - round2q ([50, 0] : List ℚ).sum),
       .num (round2q ((round2q ([100, 200] : List ℚ).sum -
         round2q ([50, 0] : List ℚ).sum) / round2q ([100, 200] : List ℚ).sum * 100))⟩ :
      MetricsRow) =
    ⟨.s "7", .s "Ana", .num 300, .num 2, .num 50, .num 15, .num 250,
      .num (mkRat 8333 100)⟩ :=
  ⟨claimC6_amended colunasPadrao grupoC6w.1 grupoC6w.2 [100, 200] [50, 0] [10, 20]
     (by decide) (by decide) (by decide) (by decide)
     (by
       have e1 : (([100, 200] : List ℚ).sum) = 300 := by norm_num
       rw [e1]
       have r1 : round2q (300 : ℚ) = 300 := by decide
       rw [r1]
       norm_num),
   by
     have e1 : (([100, 200] : List ℚ).sum) = 300 := by norm_num
     have e2 : (([50, 0] : List ℚ).sum) = 50 := by norm_num
     have e3 : (([10, 20] : List ℚ).sum) = 30 := by norm_num
     have edl : ((([10, 20] : List ℚ).length : ℚ)) = 2 := by norm_num
     rw [e1, e2, e3, edl]
     have r1 : round2q (300 : ℚ) = 300 := by decide
     have r2 : round2q (50 : ℚ) = 50 := by decide
     rw [r1, r2]
     have e5 : ((30 : ℚ) / 2) = 15 := by norm_num
     have r3 : round2q (15 : ℚ) = 15 := by decide
     rw [e5, r3]
     have e7 : (((300 : ℚ) - 50) / 300 * 100) = 250 / 3 := by norm_num
     rw [e7]
     have e6 : ((300 : ℚ) - 50) = 250 := by norm_num
     rw [e6]
     have r4 : round2q ((250 : ℚ) / 3) = mkRat 8333 100 := by
       have hm : ((250 : ℚ) / 3) = mkRat 250 3 := by
         rw [Rat.mkRat_eq_div]
         norm_num
       rw [hm]
       decide
     rw [r4]
     rfl⟩

/-! ### C7: legacy-column renaming -/

/-- Counterexample to C7: the source performs the legacy rename only when an
`RCA` column is present (`if 'RCA' in df.columns`).  `VALOR` is a key of the
legacy map, yet a table holding `VALOR` without `RCA` is returned unchanged,
so the legacy columns are not renamed independently of one another. -/
theorem claimC7_counterexample :
    renomearColuna "VALOR" = "VALOR_TITULO" ∧
    tabelaC7x.cols = ["VALOR"] ∧
    tabelaC7x.cols.contains "RCA" = false ∧
    renomearColunasLegadas tabelaC7x = tabelaC7x := by
  decide

/-- C7, amended: when the `RCA` column is present, every column label is
renamed through the fixed legacy map — keys of the map go to their canonical
names, labels outside the map (canonical names included) are untouched — and
the rows are unchanged; when `RCA` is absent the table is returned entirely
unchanged. -/
theorem claimC7_amended (t : Table) :
    (t.cols.contains "RCA" = true →
      renomearColunasLegadas t = ⟨t.cols.map renomearColuna, t.rows⟩) ∧
    (t.cols.contains "RCA" = false → renomearColunasLegadas t = t) ∧
    (∀ c canon, mapaLegado.lookup c = some canon → renomearColuna c = canon) ∧
    (∀ c, mapaLegado.lookup c = none → renomearColuna c = c) := by
  refine ⟨fun h => ?_, fun h => ?_, fun c canon h => ?_, fun c h => ?_⟩
  · rw [renomearColunasLegadas, if_pos h]
  · rw [renomearColunasLegadas, if_neg (by rw [h]; simp)]
  · rw [renomearColuna, h]; rfl
  · rw [renomearColuna, h]; rfl

/-- Witness for C7 at a concrete table holding `RCA` together with the legacy
labels `VALOR` and `DIAS` and the non-legacy label `EXTRA`. -/
theorem claimC7_witness :
    renomearColunasLegadas ⟨["RCA", "VALOR", "DIAS", "EXTRA"], [[.i 1, .i 2, .i 3, .i 4]]⟩ =
      ⟨["COD_VENDEDOR", "VALOR_TITULO", "DIAS_ATRASO", "EXTRA"], [[.i 1, .i 2, .i 3, .i 4]]⟩ := by
  have h := (claimC7_amended ⟨["RCA", "VALOR", "DIAS", "EXTRA"], [[.i 1, .i 2, .i 3, .i 4]]⟩).1
    (by decide)
  rw [h]
  decide

/-! ### C9: top-level exception catching -/

/-- C9, confirmed: both entry points wrap their whole body in
`try/except Exception: return None`, so every raised error becomes the `None`
sentinel and no exception escapes to the caller. -/
theorem claimC9_confirmed :
    (∀ (hoje : Int) (arquivo : Option Workbook) (e : PyError),
      obterDadosE hoje arquivo = .error e →
      obterDadosInadimplencia hoje arquivo = none) ∧
    (∀ (t : Table) (e : PyError),
      calcularMetricasE t = .error e →
      calcularMetricasInadimplencia t = none) := by
  constructor
  · intro hoje arquivo e h
    rw [obterDadosInadimplencia, h]
  · intro t e h
    rw [calcularMetricasInadimplencia, h]

/-- Witness for C9: a workbook whose only sheet lacks every overdue-days and
due-date column raises a `KeyError` internally yet the entry point returns
`none`; likewise a table without `VALOR_TITULO` for the aggregator. -/
theorem claimC9_witness :
    obterDadosInadimplencia 0 (some pastaC9w) = none ∧
    calcularMetricasInadimplencia tabelaC9w = none :=
  ⟨claimC9_confirmed.1 0 (some pastaC9w) (.keyError "DIAS_ATRASO") (by decide),
   claimC9_confirmed.2 tabelaC9w (.keyError "VALOR_TITULO") (by decide)⟩

/-! ### C8: sheet resolution -/

/-- Lookup after a Python dict insert: the inserted key now maps to the new
value, every other key is untouched. -/
theorem dictGet?_dictInsert (d : List (String × String)) (k v k' : String) :
    dictGet? (dictInsert d k v) k' =
      if k == k' then some v else dictGet? d k' := by
  induction d with
  | nil =>
    by_cases h : k = k'
    · have hb : (k == k') = true := by simp [h]
      simp [dictInsert, dictGet?, List.find?, hb, h]
    · have hb : (k == k') = false := by simp [h]
      simp [dictInsert, dictGet?, List.find?, hb, h]
  | cons p rest ih =>
    by_cases h0 : p.1 = k
    · have hb0 : (p.1 == k) = true := by simp [h0]
      by_cases h : k = k'
      · have hb : (k == k') = true := by simp [h]
        have hb1 : (p.1 == k') = true := by simp [h0, h]
        simp [dictInsert, dictGet?, List.find?, hb0, hb, hb1, h]
      · have hb : (k == k') = false := by simp [h]
        have hb1 : (p.1 == k') = false := by simp [h0, h]
        simp [dictInsert, dictGet?, List.find?, hb0, hb, hb1, h]
    · have hb0 : (p.1 == k) = false := by simp [h0]
      by_cases h1 : p.1 = k'
      · have hk : ¬ k = k' := fun he => h0 (h1.trans he.symm)
        have hb : (k == k') = false := by simp [hk]
        have hb1 : (p.1 == k') = true := by simp [h1]
        simp [dictInsert, dictGet?, List.find?, hb0, hb, hb1, hk]
      · have hb1 : (p.1 == k') = false := by simp [h1]
        simp only [dictInsert, hb0, Bool.false_eq_true, if_false]
        simp only [dictGet?, List.find?, hb1] at ih ⊢
        exact ih

/-- Lookup in a dict folded from a pair list on top of an initial dict: the
value is the last pair written for the key, else the initial dict's value. -/
theorem dictGet?_foldl (ps : List (String × String)) (d : List (String × String))
    (k : String) :
    dictGet? (ps.foldl (fun d kv => dictInsert d kv.1 kv.2) d) k =
      match ps.reverse.find? (fun kv => kv.1 == k) with
      | some kv => some kv.2
      | none => dictGet? d k := by
  induction ps generalizing d with
  | nil => simp
  | cons p rest ih =>
    rw [List.foldl_cons, ih, List.reverse_cons, List.find?_append]
    cases hf : rest.reverse.find? (fun kv => kv.1 == k) with
    | some kv => simp
    | none =>
      simp only [Option.orElse_none, Option.none_orElse, List.find?]
      cases hb : (p.1 == k) with
      | true =>
        have : k = p.1 := (beq_iff_eq.mp hb).symm
        simp [dictGet?_dictInsert, this]
      | false => simp [dictGet?_dictInsert, hb]

/-- Lookup in the normalized-name dictionary: the original name stored for a
normalized key is the LAST sheet (in workbook order) whose normalization
equals the key, looked up by literal key equality. -/
theorem dictGet?_mapaNorm (abas : List String) (c : String) :
    dictGet? (mapaNormParaOriginal abas) c =
      abas.reverse.find? (fun n => normTexto n == c) := by
  rw [mapaNormParaOriginal, dictOf, dictGet?_foldl, ← List.map_reverse, List.find?_map]
  have hp : ((fun (kv : String × String) => kv.1 == c) ∘ fun n => (normTexto n, n)) =
      (fun n => normTexto n == c) := rfl
  rw [hp]
  cases hf : abas.reverse.find? (fun n => normTexto n == c) with
  | none => simp [hf, dictGet?]
  | some n => simp [hf]

/-- Counterexample to C8: the candidate `"BASE INADI"` normalizes to the same
key as the available sheet `"Base Inadi"`, yet `resolve_sheet` compares the
candidate LITERALLY against the normalized keys, so it does not match and the
fallback (first sheet, flag set) is taken instead of the normalized match. -/
theorem claimC8_counterexample :
    normTexto "BASE INADI" = normTexto "Base Inadi" ∧
    resolveSheet ["Other", "Base Inadi"] ["BASE INADI"] = some ("Other", true) := by
  decide

/-- C8, amended: `resolve_sheet` returns, for the first candidate (in priority
order) that is LITERALLY equal to the normalized form of some available sheet,
the original-cased name of the last such sheet in workbook order, with the
fallback flag clear; when no candidate matches it returns the first available
sheet with the flag set, and `none` (an uncaught `IndexError` upstream) on an
empty workbook. -/
theorem claimC8_amended (abas cands : List String) :
    resolveSheet abas cands =
      match cands.findSome? (fun c => abas.reverse.find? (fun n => normTexto n == c)) with
      | some a => some (a, false)
      | none => abas.head?.map (fun a => (a, true)) := by
  rw [resolveSheet, buscarCandidato]
  simp only [dictGet?_mapaNorm]

/-! ### C5: name-pivot unification maps -/

/-- With pairwise-distinct keys, `find?` by key returns the unique pair. -/
theorem find?_key_of_nodup (l : List (String × String))
    (h : (l.map Prod.fst).Nodup) (c n : String) (hm : (c, n) ∈ l) :
    l.find? (fun p => p.1 == c) = some (c, n) := by
  induction l with
  | nil => cases hm
  | cons p rest ih =>
    rw [List.map_cons, List.nodup_cons] at h
    rcases List.mem_cons.mp hm with he | ht
    · subst he
      exact List.find?_cons_of_pos _ (by simp)
    · have hcm : c ∈ rest.map Prod.fst := List.mem_map.mpr ⟨(c, n), ht, rfl⟩
      have hne : ¬ ((p.1 == c) = true) := by
        refine fun hh => h.1 ?_
        rw [beq_iff_eq.mp hh]
        exact hcm
      rw [@List.find?_cons_of_neg _ (fun q : String × String => q.1 == c) p rest hne]
      exact ih h.2 ht

/-- With pairwise-distinct keys, the Python dict built from a pair list maps
each key to its unique value. -/
theorem dictGet?_dictOf_of_nodup (ps : List (String × String))
    (h : (ps.map Prod.fst).Nodup) (c n : String) (hm : (c, n) ∈ ps) :
    dictGet? (dictOf ps) c = some n := by
  have h2 : (ps.reverse.map Prod.fst).Nodup := by
    rw [List.map_reverse]
    exact List.nodup_reverse.mpr h
  have hmr : (c, n) ∈ ps.reverse := List.mem_reverse.mpr hm
  rw [dictOf, dictGet?_foldl, find?_key_of_nodup ps.reverse h2 c n hmr]

/-- Lookup after a first-wins insert: an existing binding is untouched, a new
key receives the value. -/
theorem dictGet?_insertIfAbsent (d : List (String × String)) (k v n : String) :
    dictGet? (insertIfAbsent d k v) n =
      match dictGet? d n with
      | some w => some w
      | none => if k == n then some v else none := by
  by_cases hs : (dictGet? d k).isSome
  · rw [insertIfAbsent, if_pos hs]
    cases hd : dictGet? d n with
    | some w => rfl
    | none =>
      have hb : (k == n) = false := by
        refine beq_eq_false_iff_ne.mpr fun hh => ?_
        rw [hh, hd] at hs
        simp at hs
      rw [hb]
      rfl
  · rw [insertIfAbsent, if_neg hs]
    rw [dictGet?, List.find?_append]
    cases hd : d.find? (fun kv => kv.1 == n) with
    | some w => simp [dictGet?, hd]
    | none =>
      cases hb : (k == n) <;> simp [dictGet?, hd, List.find?, hb]

/-- Lookup in the first-wins fold on top of an initial dict. -/
theorem dictGet?_primeiro_foldl (ps : List (String × String))
    (d : List (String × String)) (n : String) :
    dictGet? (ps.foldl (fun d p => insertIfAbsent d p.2 p.1) d) n =
      match dictGet? d n with
      | some w => some w
      | none => (ps.find? (fun p => p.2 == n)).map Prod.fst := by
  induction ps generalizing d with
  | nil => cases hd : dictGet? d n <;> exact hd
  | cons p rest ih =>
    rw [List.foldl_cons, ih, dictGet?_insertIfAbsent]
    cases hd : dictGet? d n with
    | some w => rfl
    | none =>
      cases hb : (p.2 == n) with
      | true =>
        rw [List.find?_cons_of_pos _ (by rw [hb])]
        simp [hb]
      | false =>
        rw [List.find?_cons_of_neg _ (by simp [hb])]
        simp [hb]

/-- The pivot dictionary maps each raw name to the first-encountered raw code
bearing that name. -/
theorem dictGet?_primeiroPorNome (pares : List (String × String)) (n : String) :
    dictGet? (primeiroPorNome pares) n =
      (pares.find? (fun p => p.2 == n)).map Prod.fst := by
  rw [primeiroPorNome, dictGet?_primeiro_foldl]
  rfl

/-- C5, confirmed: in the name-pivot fallback of the map construction, the
pivot for a name is the first-encountered code with that name; every pair
`(c, n)` of the reference rows (codes pairwise distinct) is mapped by the code
dictionary to the pivot of `n` and by the name dictionary to `n`; on the
spec's example table the constructed maps send 101 and 102 to pivot 101 with
name Alice and 103 to itself. -/
theorem claimC5_confirmed (pares : List (String × String))
    (hnd : (pares.map Prod.fst).Nodup) (c n : String) (hm : (c, n) ∈ pares) :
    dictGet? (primeiroPorNome pares) n =
      (pares.find? (fun p => p.2 == n)).map Prod.fst ∧
    dictGet? (dictOf (pares.map fun p =>
        (p.1, (dictGet? (primeiroPorNome pares) p.2).getD p.1))) c =
      some ((dictGet? (primeiroPorNome pares) n).getD c) ∧
    dictGet? (dictOf pares) c = some n ∧
    construirMapas tabelaC5w =
      ([("101", "101"), ("102", "101"), ("103", "103")],
       [("101", "Alice"), ("102", "Alice"), ("103", "Bob")]) := by
  refine ⟨dictGet?_primeiroPorNome pares n, ?_,
    dictGet?_dictOf_of_nodup pares hnd c n hm, by decide⟩
  have hc : (Prod.fst ∘ fun p : String × String =>
      (p.1, (dictGet? (primeiroPorNome pares) p.2).getD p.1)) = Prod.fst := rfl
  have hk : ((pares.map fun p =>
      (p.1, (dictGet? (primeiroPorNome pares) p.2).getD p.1)).map Prod.fst).Nodup := by
    rw [List.map_map, hc]
    exact hnd
  have hmem : (c, (dictGet? (primeiroPorNome pares) n).getD c) ∈
      pares.map fun p => (p.1, (dictGet? (primeiroPorNome pares) p.2).getD p.1) :=
    List.mem_map.mpr ⟨(c, n), hm, rfl⟩
  exact dictGet?_dictOf_of_nodup _ hk _ _ hmem

/-- Witness for C5 on the spec's example: code `102` named `Alice` is sent by
the code map to the pivot `101`. -/
theorem claimC5_witness :
    (dictGet? (primeiroPorNome [("101", "Alice"), ("102", "Alice"), ("103", "Bob")])
        "Alice").getD "102" = "101" ∧
    dictGet? (dictOf ([("101", "Alice"), ("102", "Alice"), ("103", "Bob")].map fun p =>
        (p.1, (dictGet? (primeiroPorNome
          [("101", "Alice"), ("102", "Alice"), ("103", "Bob")]) p.2).getD p.1))) "102" =
      some ((dictGet? (primeiroPorNome
        [("101", "Alice"), ("102", "Alice"), ("103", "Bob")]) "Alice").getD "102") :=
  ⟨by decide,
   (claimC5_confirmed [("101", "Alice"), ("102", "Alice"), ("103", "Bob")]
     (by decide) "102" "Alice" (by decide)).2.1⟩

/-! ### C2: missing overdue-days and due-date columns -/

/-- Appending a fresh column label does not affect other labels. -/
theorem contains_append_single (l : List String) (c c' : String) (h : c' ≠ c) :
    (l ++ [c]).contains c' = l.contains c' := by
  simp [h]

/-- A `passoConst` step does not affect the presence of other labels. -/
theorem contains_passoConst (t : Table) (c : String) (v : Value) (c' : String)
    (h : c' ≠ c) : (passoConst t c v).cols.contains c' = t.cols.contains c' := by
  rw [passoConst]
  by_cases hc : t.cols.contains c = true
  · rw [if_pos hc]
  · have hc' : t.cols.contains c = false := by simpa using hc
    rw [if_neg hc, cols_mapAddCol_of_not_contains _ hc']
    exact contains_append_single _ _ _ h

/-- When one of the three source columns is present the name-synthesis step
succeeds and does not affect the presence of other labels. -/
theorem passoNomeVendedor_ok {t : Table}
    (hnv : (t.cols.contains "NOME_VENDEDOR" ||
      (t.cols.contains "NOME_RCA" || t.cols.contains "COD_VENDEDOR")) = true) :
    ∃ t1, passoNomeVendedor t = .ok t1 ∧
      ∀ c', c' ≠ "NOME_VENDEDOR" → t1.cols.contains c' = t.cols.contains c' := by
  by_cases h1 : t.cols.contains "NOME_VENDEDOR" = true
  · exact ⟨t, by rw [passoNomeVendedor, if_pos h1], fun c' _ => rfl⟩
  · have h1' : t.cols.contains "NOME_VENDEDOR" = false := by simpa using h1
    by_cases h2 : t.cols.contains "NOME_RCA" = true
    · refine ⟨_, by rw [passoNomeVendedor, if_neg (by simpa using h1'), if_pos h2], fun c' hc' => ?_⟩
      rw [cols_mapAddCol_of_not_contains _ h1']
      exact contains_append_single _ _ _ hc'
    · by_cases h3 : t.cols.contains "COD_VENDEDOR" = true
      · refine ⟨_, by rw [passoNomeVendedor, if_neg (by simpa using h1'), if_neg h2, if_pos h3],
          fun c' hc' => ?_⟩
        rw [cols_mapAddCol_of_not_contains _ h1']
        exact contains_append_single _ _ _ hc'
      · exfalso
        rw [h1'] at hnv
        simp only [Bool.false_or, Bool.or_eq_true] at hnv
        rcases hnv with h | h
        · exact h2 h
        · exact h3 h

/-- With a synthesizable name but neither overdue-days nor due-date column,
the synthesis chain raises the generic `KeyError('DIAS_ATRASO')`. -/
theorem sintetizar_diasKeyError (hoje : Int) (t : Table)
    (hnv : (t.cols.contains "NOME_VENDEDOR" ||
      (t.cols.contains "NOME_RCA" || t.cols.contains "COD_VENDEDOR")) = true)
    (hd : t.cols.contains "DIAS_ATRASO" = false)
    (hv : t.cols.contains "DATA_VENCIMENTO" = false) :
    sintetizarColunas hoje t = .error (.keyError "DIAS_ATRASO") := by
  obtain ⟨t1, h1, hp⟩ := passoNomeVendedor_ok hnv
  rw [sintetizarColunas, h1]
  have hd3 : (passoConst (passoConst t1 "COD_CLIENTE" (.s "Cliente"))
      "NOME_CLIENTE" (.s "Cliente")).cols.contains "DIAS_ATRASO" = false := by
    rw [contains_passoConst _ _ _ _ (by decide), contains_passoConst _ _ _ _ (by decide),
      hp _ (by decide)]
    exact hd
  have hv3 : (passoConst (passoConst t1 "COD_CLIENTE" (.s "Cliente"))
      "NOME_CLIENTE" (.s "Cliente")).cols.contains "DATA_VENCIMENTO" = false := by
    rw [contains_passoConst _ _ _ _ (by decide), contains_passoConst _ _ _ _ (by decide),
      hp _ (by decide)]
    exact hv
  dsimp only
  rw [passoDataVencimento, if_neg (by simpa using hv3), if_neg (by simpa using hd3)]

/-- On a single-sheet workbook every resolution returns that sheet. -/
theorem resolveSheet_single (name : String) (cands : List String) :
    ∃ b, resolveSheet [name] cands = some (name, b) := by
  rw [resolveSheet]
  cases hf : buscarCandidato (mapaNormParaOriginal [name]) cands with
  | none => exact ⟨true, rfl⟩
  | some a =>
    refine ⟨false, ?_⟩
    obtain ⟨c, _, hc⟩ := List.exists_of_findSome?_eq_some hf
    rw [dictGet?_mapaNorm] at hc
    have ha : a ∈ ([name] : List String).reverse := List.mem_of_find?_eq_some hc
    have he : a = name := by simpa using ha
    subst he
    rfl

/-- Counterexample to C2: a sheet lacking both `DIAS_ATRASO` and
`DATA_VENCIMENTO` raises the generic built-in `KeyError('DIAS_ATRASO')` — the
source defines no typed `MissingRequiredColumnError` — and the top-level
handler swallows it, so the caller sees the `None` sentinel, not a typed
error. -/
theorem claimC2_counterexample :
    obterDadosE 0 (some pastaC2x) = .error (.keyError "DIAS_ATRASO") ∧
    obterDadosInadimplencia 0 (some pastaC2x) = none := by
  decide

/-- C2, amended: for every single-sheet workbook whose non-empty sheet still
lacks `DIAS_ATRASO` and `DATA_VENCIMENTO` after legacy renaming (and has one
of the columns the name-synthesis step needs), the load raises the generic
`KeyError('DIAS_ATRASO')` internally and returns the `None` sentinel — no
partial normalized table, but also no typed error. -/
theorem claimC2_amended (hoje : Int) (name : String) (t : Table)
    (hre : t.rows.isEmpty = false) (hce : t.cols.isEmpty = false)
    (hnv : ((renomearColunasLegadas t).cols.contains "NOME_VENDEDOR" ||
      ((renomearColunasLegadas t).cols.contains "NOME_RCA" ||
       (renomearColunasLegadas t).cols.contains "COD_VENDEDOR")) = true)
    (hd : (renomearColunasLegadas t).cols.contains "DIAS_ATRASO" = false)
    (hv : (renomearColunasLegadas t).cols.contains "DATA_VENCIMENTO" = false) :
    obterDadosE hoje (some ⟨[(name, t)]⟩) = .error (.keyError "DIAS_ATRASO") ∧
    obterDadosInadimplencia hoje (some ⟨[(name, t)]⟩) = none := by
  have hmain : obterDadosE hoje (some ⟨[(name, t)]⟩) = .error (.keyError "DIAS_ATRASO") := by
    obtain ⟨b, hres⟩ := resolveSheet_single name candidatosInadi
    have hnames : Workbook.sheetNames ⟨[(name, t)]⟩ = [name] := rfl
    rw [obterDadosE, hnames, hres]
    have hls : lookupSheet ⟨[(name, t)]⟩ name = some t := by
      simp [lookupSheet, List.find?]
    dsimp only
    rw [hls]
    dsimp only
    rw [hre, hce]
    simp only [Bool.or_self, Bool.false_eq_true, if_false]
    rw [sintetizar_diasKeyError hoje _ hnv hd hv]
  exact ⟨hmain, by rw [obterDadosInadimplencia, hmain]⟩

/-- Witness for C2 at a concrete single-sheet workbook lacking both columns. -/
theorem claimC2_witness :
    obterDadosE 3 (some ⟨[("Aba", tabelaC2x)]⟩) = .error (.keyError "DIAS_ATRASO") ∧
    obterDadosInadimplencia 3 (some ⟨[("Aba", tabelaC2x)]⟩) = none :=
  claimC2_amended 3 "Aba" tabelaC2x (by decide) (by decide) (by decide) (by decide) (by decide)

/-! ### C4: unified identity columns -/

/-- Row tracking through the two unification column assignments. -/
theorem rows_unifSteps (t : Table) (hWf : t.Wf) (f g : List Value → Value) :
    ∀ r' ∈ ((t.mapAddCol "COD_UNIFICADO" f).mapAddCol "NOME_UNIFICADO" g).rows,
    ∃ r ∈ t.rows, ∃ r1 ∈ (t.mapAddCol "COD_UNIFICADO" f).rows,
      rowGet? ((t.mapAddCol "COD_UNIFICADO" f).mapAddCol "NOME_UNIFICADO" g).cols
        r' "COD_UNIFICADO" = some (f r) ∧
      rowGet? ((t.mapAddCol "COD_UNIFICADO" f).mapAddCol "NOME_UNIFICADO" g).cols
        r' "NOME_UNIFICADO" = some (g r1) ∧
      ∀ c', c' ≠ "COD_UNIFICADO" →
        rowGet? (t.mapAddCol "COD_UNIFICADO" f).cols r1 c' = rowGet? t.cols r c' := by
  intro r' hr'
  have hWf1 : (t.mapAddCol "COD_UNIFICADO" f).Wf := wf_mapAddCol _ _ hWf
  obtain ⟨r1, hr1, hgn, hother⟩ := rows_mapAddCol hWf1 hr'
  obtain ⟨r, hr, hfc, hother1⟩ := rows_mapAddCol hWf hr1
  refine ⟨r, hr, r1, hr1, ?_, hgn, fun c' h1 => hother1 c' h1⟩
  rw [hother _ (by decide)]
  exact hfc

/-- The no-map fallback: unified code is the stringified own code, unified
name the row's own (possibly null) name. -/
theorem aplicarSemMapa_spec (t : Table) (hWf : t.Wf)
    (hcn : (t.cols.contains "COD_VENDEDOR" && t.cols.contains "NOME_VENDEDOR") = true) :
    ∃ t', aplicarSemMapa t = .ok t' ∧
      ∀ r' ∈ t'.rows, ∃ r ∈ t.rows,
        rowGet? t'.cols r' "COD_UNIFICADO" =
          some (.s (pyStr (cellD t.cols r "COD_VENDEDOR"))) ∧
        rowGet? t'.cols r' "NOME_UNIFICADO" = some (cellD t.cols r "NOME_VENDEDOR") := by
  rw [aplicarSemMapa, if_pos hcn]
  refine ⟨_, rfl, ?_⟩
  intro r' hr'
  obtain ⟨r, hr, r1, hr1, hcod, hnom, hoth⟩ := rows_unifSteps t hWf _ _ r' hr'
  refine ⟨r, hr, hcod, ?_⟩
  rw [hnom]
  have hn := hoth "NOME_VENDEDOR" (by decide)
  simp only [cellD] at hn ⊢
  rw [hn]

/-- The mapped assignment: unified code is the dictionary image of the
stringified own code (falling back to that string), unified name the name
dictionary image (falling back to the row's own name). -/
theorem aplicarMapa_spec (mc mn : List (String × String)) (t : Table) (hWf : t.Wf)
    (hcn : (t.cols.contains "COD_VENDEDOR" && t.cols.contains "NOME_VENDEDOR") = true) :
    ∃ t', aplicarMapa mc mn t = .ok t' ∧
      ∀ r' ∈ t'.rows, ∃ r ∈ t.rows,
        rowGet? t'.cols r' "COD_UNIFICADO" =
          some (.s ((dictGet? mc (pyStr (cellD t.cols r "COD_VENDEDOR"))).getD
            (pyStr (cellD t.cols r "COD_VENDEDOR")))) ∧
        rowGet? t'.cols r' "NOME_UNIFICADO" =
          some (((dictGet? mn (pyStr (cellD t.cols r "COD_VENDEDOR"))).map Value.s).getD
            (cellD t.cols r "NOME_VENDEDOR")) := by
  rw [aplicarMapa, if_pos hcn]
  refine ⟨_, rfl, ?_⟩
  intro r' hr'
  obtain ⟨r, hr, r1, hr1, hcod, hnom, hoth⟩ := rows_unifSteps t hWf _ _ r' hr'
  refine ⟨r, hr, hcod, ?_⟩
  rw [hnom]
  have hn := hoth "NOME_VENDEDOR" (by decide)
  have hv := hoth "COD_VENDEDOR" (by decide)
  simp only [cellD] at hn hv ⊢
  rw [hn, hv]

/-- Counterexample to C4: a record whose own salesperson name is null keeps a
NULL `NOME_UNIFICADO` after unification (the fallback is the raw name cell,
`fillna` included), so the unified name is not always non-null; the unified
code, in contrast, is the string `"1"`. -/
theorem claimC4_counterexample :
    obterDadosInadimplencia 0 (some pastaC4x) = some saidaC4x ∧
    (saidaC4x.rows.map fun r => cellD saidaC4x.cols r "NOME_UNIFICADO") = [.null] ∧
    (saidaC4x.rows.map fun r => cellD saidaC4x.cols r "COD_UNIFICADO") = [.s "1"] := by
  decide

/-- C4, amended: whenever the normalized table holds the code and name
columns, the unification block never fails — whatever the reference workbook
looks like — and every output record carries a string (hence non-null)
`COD_UNIFICADO`, while `NOME_UNIFICADO` is either a string from the name map
or the record's OWN raw name cell, which may be null. -/
theorem claimC4_amended (wb : Workbook) (t : Table) (hWf : t.Wf)
    (hcn : (t.cols.contains "COD_VENDEDOR" && t.cols.contains "NOME_VENDEDOR") = true) :
    ∃ t', unificarBloco wb t = .ok t' ∧
      ∀ r' ∈ t'.rows, ∃ r ∈ t.rows,
        (∃ s : String, rowGet? t'.cols r' "COD_UNIFICADO" = some (.s s)) ∧
        (rowGet? t'.cols r' "NOME_UNIFICADO" = some (cellD t.cols r "NOME_VENDEDOR") ∨
         ∃ v : String, rowGet? t'.cols r' "NOME_UNIFICADO" = some (.s v)) := by
  rw [unificarBloco, unificarBlocoTry]
  cases hl : lerMapas wb with
  | error e =>
    obtain ⟨t', ht', hp⟩ := aplicarSemMapa_spec t hWf hcn
    refine ⟨t', ?_, ?_⟩
    · dsimp only
      exact ht'
    · intro r' hr'
      obtain ⟨r, hr, hc, hnm⟩ := hp r' hr'
      exact ⟨r, hr, ⟨_, hc⟩, Or.inl hnm⟩
  | ok p =>
    obtain ⟨mc, mn⟩ := p
    dsimp only
    by_cases hm : mn.isEmpty = true
    · rw [if_pos hm]
      obtain ⟨t', ht', hp⟩ := aplicarSemMapa_spec t hWf hcn
      rw [ht']
      refine ⟨t', rfl, ?_⟩
      intro r' hr'
      obtain ⟨r, hr, hc, hnm⟩ := hp r' hr'
      exact ⟨r, hr, ⟨_, hc⟩, Or.inl hnm⟩
    · rw [if_neg hm]
      obtain ⟨t', ht', hp⟩ := aplicarMapa_spec mc mn t hWf hcn
      rw [ht']
      refine ⟨t', rfl, ?_⟩
      intro r' hr'
      obtain ⟨r, hr, hc, hnm⟩ := hp r' hr'
      refine ⟨r, hr, ⟨_, hc⟩, ?_⟩
      cases ho : dictGet? mn (pyStr (cellD t.cols r "COD_VENDEDOR")) with
      | none =>
        rw [ho] at hnm
        simp only [Option.map_none', Option.getD_none] at hnm
        exact Or.inl hnm
      | some v =>
        rw [ho] at hnm
        simp only [Option.map_some', Option.getD_some] at hnm
        exact Or.inr ⟨v, hnm⟩

/-- Witness for C4 on the workbook whose reference sheet is missing and whose
only record has a null name. -/
theorem claimC4_witness :
    ∃ t', unificarBloco pastaC4x tabelaC4x = .ok t' ∧
      ∀ r' ∈ t'.rows, ∃ r ∈ tabelaC4x.rows,
        (∃ s : String, rowGet? t'.cols r' "COD_UNIFICADO" = some (.s s)) ∧
        (rowGet? t'.cols r' "NOME_UNIFICADO" =
          some (cellD tabelaC4x.cols r "NOME_VENDEDOR") ∨
         ∃ v : String, rowGet? t'.cols r' "NOME_UNIFICADO" = some (.s v)) :=
  claimC4_amended pastaC4x tabelaC4x (by decide) (by decide)

/-! ### C10: stringified codes and map lookups -/

/-- Counterexample to C10: with the explicit reference map `102 → 101`, the
record with numeric own code `102` ends with unified code `"101"` — the map
VALUE — which differs from the string conversion `"102"` of its raw code, so
the unified code is not always that string conversion. -/
theorem claimC10_counterexample :
    obterDadosInadimplencia 0 (some pastaC10x) = some saidaC10x ∧
    (saidaC10x.rows.map fun r => cellD saidaC10x.cols r "COD_UNIFICADO") = [.s "101"] ∧
    (saidaC10x.rows.map fun r => pyStr (cellD saidaC10x.cols r "COD_VENDEDOR")) = ["102"] := by
  decide

/-- C10, amended: on every path the unified code is a string and the lookup
key is the stringified raw code — but on the mapped path the stored value is
the code dictionary's image of that key (falling back to the key itself),
not necessarily the key: either the no-map fallback stores exactly
`str(own code)`, or the maps were read and the stored value is the
dictionary lookup at `str(own code)` with `str(own code)` as default. -/
theorem claimC10_amended (wb : Workbook) (t : Table) (hWf : t.Wf)
    (hcn : (t.cols.contains "COD_VENDEDOR" && t.cols.contains "NOME_VENDEDOR") = true) :
    ∃ t', unificarBloco wb t = .ok t' ∧
      ∀ r' ∈ t'.rows, ∃ r ∈ t.rows,
        rowGet? t'.cols r' "COD_UNIFICADO" =
          some (.s (pyStr (cellD t.cols r "COD_VENDEDOR"))) ∨
        ∃ mc mn, lerMapas wb = .ok (mc, mn) ∧
          rowGet? t'.cols r' "COD_UNIFICADO" =
            some (.s ((dictGet? mc (pyStr (cellD t.cols r "COD_VENDEDOR"))).getD
              (pyStr (cellD t.cols r "COD_VENDEDOR")))) := by
  rw [unificarBloco, unificarBlocoTry]
  cases hl : lerMapas wb with
  | error e =>
    obtain ⟨t', ht', hp⟩ := aplicarSemMapa_spec t hWf hcn
    refine ⟨t', ?_, ?_⟩
    · dsimp only
      exact ht'
    · intro r' hr'
      obtain ⟨r, hr, hc, _⟩ := hp r' hr'
      exact ⟨r, hr, Or.inl hc⟩
  | ok p =>
    obtain ⟨mc, mn⟩ := p
    dsimp only
    by_cases hm : mn.isEmpty = true
    · rw [if_pos hm]
      obtain ⟨t', ht', hp⟩ := aplicarSemMapa_spec t hWf hcn
      rw [ht']
      refine ⟨t', rfl, ?_⟩
      intro r' hr'
      obtain ⟨r, hr, hc, _⟩ := hp r' hr'
      exact ⟨r, hr, Or.inl hc⟩
    · rw [if_neg hm]
      obtain ⟨t', ht', hp⟩ := aplicarMapa_spec mc mn t hWf hcn
      rw [ht']
      refine ⟨t', rfl, ?_⟩
      intro r' hr'
      obtain ⟨r, hr, hc, _⟩ := hp r' hr'
      exact ⟨r, hr, Or.inr ⟨mc, mn, rfl, hc⟩⟩

/-- Witness for C10 on the workbook holding the explicit `102 → 101` map. -/
theorem claimC10_witness :
    ∃ t', unificarBloco pastaC10x tabelaC10x = .ok t' ∧
      ∀ r' ∈ t'.rows, ∃ r ∈ tabelaC10x.rows,
        rowGet? t'.cols r' "COD_UNIFICADO" =
          some (.s (pyStr (cellD tabelaC10x.cols r "COD_VENDEDOR"))) ∨
        ∃ mc mn, lerMapas pastaC10x = .ok (mc, mn) ∧
          rowGet? t'.cols r' "COD_UNIFICADO" =
            some (.s ((dictGet? mc (pyStr (cellD tabelaC10x.cols r "COD_VENDEDOR"))).getD
              (pyStr (cellD tabelaC10x.cols r "COD_VENDEDOR")))) :=
  claimC10_amended pastaC10x tabelaC10x (by decide) (by decide)
